import Mathlib

/-!
Verification of the brightdaybot birthday scheduling and announcement pipeline.

This file gives a shallow embedding, in Lean 4, of the core logic of the
repository: the date arithmetic of `utils/date_utils.py`, the per-day
announcement ledger of `utils/storage.py`, the daily scheduler of
`services/birthday.py`, and the message composer (`completion` and
`fix_slack_formatting`) of `utils/message_generator.py`.  Python strings are
modelled as `List Char`, Python `datetime` dates as triples of naturals, and
day differences of `datetime` subtraction via a proleptic-Gregorian day count
(`rataDie`).  Effectful collaborators (the Slack client, the OpenAI backend,
the file system) are modelled as explicit parameters: the generative backend
is a function from the attempt index to its outcome, the tracking directory
is a list of (date key, lines) files, and the ambient clock reads that some
Python functions perform through `datetime.now()` are explicit `now`
arguments.
-/

set_option maxRecDepth 8000
set_option synthInstance.maxSize 40000

namespace BrightDayBot

/-! ## Gregorian calendar, as implemented by Python `datetime`

`datetime.date` validity is proleptic Gregorian with years 1..9999
(`datetime.MINYEAR`/`MAXYEAR`); constructing an invalid date raises
`ValueError`.  `isLeap` is the Gregorian leap rule. -/

def isLeap (y : Nat) : Bool := y % 4 == 0 && (y % 100 != 0 || y % 400 == 0)

/-- Length of month `m` (1..12) in a year whose leap status is `L`. -/
def daysInMonthB (L : Bool) (m : Nat) : Nat :=
  if m == 2 then (if L then 29 else 28)
  else if m == 4 || m == 6 || m == 9 || m == 11 then 30
  else 31

def daysInMonth (y m : Nat) : Nat := daysInMonthB (isLeap y) m

/-- `datetime(y, m, d)` succeeds exactly when this holds (years 1..9999). -/
def dateValid (y m d : Nat) : Bool :=
  1 ≤ y && y ≤ 9999 && 1 ≤ m && m ≤ 12 && 1 ≤ d && d ≤ daysInMonth y m

/-- Days in months strictly before month `m` of a year with leap status `L`. -/
def daysBeforeMonthB (L : Bool) (m : Nat) : Nat :=
  let e : Nat := if L then 1 else 0
  match m with
  | 1 => 0 | 2 => 31 | 3 => 59 + e | 4 => 90 + e | 5 => 120 + e | 6 => 151 + e
  | 7 => 181 + e | 8 => 212 + e | 9 => 243 + e | 10 => 273 + e | 11 => 304 + e
  | 12 => 334 + e | _ => 0

/-- 1-based ordinal of day `d` of month `m` within its year. -/
def dayOfYear (y m d : Nat) : Nat := daysBeforeMonthB (isLeap y) m + d

/-- Number of leap years among 1..y-1. -/
def leapsBefore (y : Nat) : Nat := (y - 1) / 4 + (y - 1) / 400 - (y - 1) / 100

/-- Days in all years strictly before year `y` (proleptic Gregorian). -/
def daysBeforeYear (y : Nat) : Nat := 365 * (y - 1) + leapsBefore y

/-- Absolute day number of a date; `datetime` subtraction `a - b` in days is
`(rataDie a : Int) - rataDie b`. -/
def rataDie (y m d : Nat) : Nat := daysBeforeYear y + dayOfYear y m d

def yearLength (y : Nat) : Nat := 365 + (if isLeap y then 1 else 0)

theorem daysBeforeYear_step (y : Nat) (hy : 1 ≤ y) :
    daysBeforeYear (y + 1) = daysBeforeYear y + yearLength y := by
  obtain ⟨n, rfl⟩ : ∃ n, y = n + 1 := ⟨y - 1, by omega⟩
  have h1 : n / 100 ≤ n / 4 := by
    rw [← Nat.div_div_eq_div_mul n 4 25]; exact Nat.div_le_self _ _
  simp only [daysBeforeYear, leapsBefore, isLeap, yearLength, Nat.add_sub_cancel,
    Nat.succ_div, Bool.and_eq_true, Bool.or_eq_true, beq_iff_eq, bne_iff_ne]
  split_ifs <;> omega

theorem daysBeforeYear_add (y k : Nat) (hy : 1 ≤ y) :
    daysBeforeYear y + 365 * k ≤ daysBeforeYear (y + k) := by
  induction k with
  | zero => simp
  | succ k ih =>
    have hstep := daysBeforeYear_step (y + k) (by omega)
    have h365 : yearLength (y + k) ≥ 365 := by unfold yearLength; split <;> omega
    have hsucc : y + (k + 1) = y + k + 1 := rfl
    rw [hsucc]
    omega

/-- Every stretch of eight consecutive years contains a leap year. -/
theorem leap_within_eight (y : Nat) : ∃ k, 1 ≤ k ∧ k ≤ 8 ∧ isLeap (y + k) = true := by
  have hmod : ∀ z : Nat, isLeap z = isLeap (z % 400) := by
    intro z
    unfold isLeap
    rw [Nat.mod_mod_of_dvd z (by norm_num : (4:Nat) ∣ 400),
      Nat.mod_mod_of_dvd z (by norm_num : (100:Nat) ∣ 400),
      Nat.mod_mod_of_dvd z (dvd_refl 400)]
  have hcore : ∀ r < 400, ∃ k, k < 9 ∧ 1 ≤ k ∧ isLeap (r + k) = true := by decide
  obtain ⟨k, hk9, hk1, hk⟩ := hcore (y % 400) (Nat.mod_lt _ (by norm_num))
  refine ⟨k, hk1, by omega, ?_⟩
  rw [hmod (y + k)]
  rw [hmod (y % 400 + k)] at hk
  have heq : (y + k) % 400 = (y % 400 + k) % 400 := by
    conv_lhs => rw [Nat.add_mod]
    rw [Nat.mod_eq_of_lt (show k < 400 by omega)]
  rw [heq]
  exact hk

/-- Month lengths do not depend on the year except for February. -/
theorem daysInMonthB_eq_of_ne_two (L L' : Bool) (m : Nat) (hm : m ≠ 2) :
    daysInMonthB L m = daysInMonthB L' m := by
  unfold daysInMonthB
  simp only [beq_iff_eq]
  rw [if_neg hm, if_neg hm]

theorem daysInMonthB_le_31 (L : Bool) (m : Nat) : daysInMonthB L m ≤ 31 := by
  unfold daysInMonthB
  split_ifs <;> omega

/-- The months of one year occupy disjoint, ordered ranges of day ordinals. -/
theorem monthRanges_ordered (L : Bool) : ∀ a < 13, ∀ b < 13, 1 ≤ a → a < b →
    daysBeforeMonthB L a + daysInMonthB L a ≤ daysBeforeMonthB L b := by
  cases L <;> decide

theorem monthRange_top (L : Bool) : ∀ a < 13, 1 ≤ a →
    daysBeforeMonthB L a + daysInMonthB L a ≤ 365 + (if L then 1 else 0) := by
  cases L <;> decide

theorem dayOfYearB_bounds (L : Bool) (m d : Nat) (hm1 : 1 ≤ m) (hm2 : m ≤ 12)
    (hd1 : 1 ≤ d) (hd2 : d ≤ daysInMonthB L m) :
    1 ≤ daysBeforeMonthB L m + d ∧
      daysBeforeMonthB L m + d ≤ 365 + (if L then 1 else 0) := by
  have htop := monthRange_top L m (by omega) hm1
  omega

theorem dayOfYearB_inj (L : Bool) (m d m' d' : Nat)
    (hm1 : 1 ≤ m) (hm2 : m ≤ 12) (hd1 : 1 ≤ d) (hd2 : d ≤ daysInMonthB L m)
    (hm1' : 1 ≤ m') (hm2' : m' ≤ 12) (hd1' : 1 ≤ d') (hd2' : d' ≤ daysInMonthB L m')
    (heq : daysBeforeMonthB L m + d = daysBeforeMonthB L m' + d') :
    m = m' ∧ d = d' := by
  rcases Nat.lt_trichotomy m m' with h | h | h
  · have := monthRanges_ordered L m (by omega) m' (by omega) hm1 h
    omega
  · subst h
    exact ⟨rfl, by omega⟩
  · have := monthRanges_ordered L m' (by omega) m (by omega) hm1' h
    omega

theorem daysBeforeMonthB_le_succ (L L' : Bool) : ∀ m < 13,
    daysBeforeMonthB L' m ≤ daysBeforeMonthB L m + 1 := by
  cases L <;> cases L' <;> decide

/-! ## DateEngine: `utils/date_utils.py`

A Python `datetime` value, stripped of its time-of-day component, is a
`SimpleDate`.  The stored birthday strings are always `DD/MM`, parsed by
`day, month = map(int, date_str.split("/"))`; the embedding takes the two
parsed numbers `d m` directly. -/

structure SimpleDate where
  year : Nat
  month : Nat
  day : Nat
deriving DecidableEq, Repr

def SimpleDate.valid (t : SimpleDate) : Bool := dateValid t.year t.month t.day

/-- Core of `check_if_birthday_today` once the reference date is fixed:
`day == reference_date.day and month == reference_date.month`. -/
def check_if_birthday_today (d m : Nat) (ref : SimpleDate) : Bool :=
  d == ref.day && m == ref.month

/-- `check_if_birthday_today(date_str, reference_date=None)`: when the caller
passes no reference date the function reads the ambient clock
(`datetime.now(timezone.utc)`), modelled by the explicit `now` argument. -/
def check_if_birthday_today_impl (d m : Nat) (reference : Option SimpleDate)
    (now : SimpleDate) : Bool :=
  check_if_birthday_today d m (reference.getD now)

/-- The `while True` loop at the end of `calculate_days_until_birthday`:
starting at year `y`, advance year by year until `datetime(year, month, day)`
succeeds.  The Python loop is unbounded; `fuel` bounds the search in the
embedding, and `none` models the loop running past `y + fuel - 1` (proved
unreachable with `fuel = 8` for any day/month that is valid in some year,
while the reference year stays below `datetime.MAXYEAR - 8`). -/
def nextValidYear (m d : Nat) : Nat → Nat → Option Nat
  | 0, _ => none
  | fuel + 1, y => if dateValid y m d then some y else nextValidYear m d fuel (y + 1)

/-- `calculate_days_until_birthday(date_str, reference_date)` with the
reference date supplied and already stripped to midnight.  First tries this
year's occurrence; if it is strictly in the past, tries next year's; a
`ValueError` from either `datetime` construction drops into the roll-forward
loop starting at `reference_date.year + 1`.  The returned value is the
`datetime` subtraction `(birthday_date - reference_date).days`. -/
def calculate_days_until_birthday (d m : Nat) (ref : SimpleDate) : Option Int :=
  let refN : Int := rataDie ref.year ref.month ref.day
  let rollForward : Option Int :=
    (nextValidYear m d 8 (ref.year + 1)).map fun y => (rataDie y m d : Int) - refN
  if dateValid ref.year m d then
    if rataDie ref.year m d < rataDie ref.year ref.month ref.day then
      if dateValid (ref.year + 1) m d then
        some ((rataDie (ref.year + 1) m d : Int) - refN)
      else rollForward
    else some ((rataDie ref.year m d : Int) - refN)
  else rollForward

/-- `calculate_days_until_birthday(date_str, reference_date=None)`: the
`None` default reads the ambient clock, modelled by `now`. -/
def calculate_days_until_birthday_impl (d m : Nat) (reference : Option SimpleDate)
    (now : SimpleDate) : Option Int :=
  calculate_days_until_birthday d m (reference.getD now)

/-- `calculate_age(birth_year, birth_date=None)`.  The function has no
reference-date parameter at all: `today = datetime.now()` is an unconditional
ambient clock read, modelled by the explicit `now` argument.  The tuple
comparison `(today.month, today.day) < (month, day)` is lexicographic. -/
def calculate_age (birth_year : Nat) (birth_date : Option (Nat × Nat))
    (now : SimpleDate) : Int :=
  let age : Int := (now.year : Int) - (birth_year : Int)
  match birth_date with
  | some (d, m) =>
      if now.month < m || (now.month == m && now.day < d) then age - 1 else age
  | none => age

/-- `get_star_sign(date_str)` for an already-parsed day/month pair; with the
pair supplied, the `except` branch (a failed string split) is unreachable. -/
def get_star_sign (d m : Nat) : String :=
  if (m == 1 && 20 ≤ d) || (m == 2 && d ≤ 18) then "Aquarius"
  else if (m == 2 && 19 ≤ d) || (m == 3 && d ≤ 20) then "Pisces"
  else if (m == 3 && 21 ≤ d) || (m == 4 && d ≤ 19) then "Aries"
  else if (m == 4 && 20 ≤ d) || (m == 5 && d ≤ 20) then "Taurus"
  else if (m == 5 && 21 ≤ d) || (m == 6 && d ≤ 20) then "Gemini"
  else if (m == 6 && 21 ≤ d) || (m == 7 && d ≤ 22) then "Cancer"
  else if (m == 7 && 23 ≤ d) || (m == 8 && d ≤ 22) then "Leo"
  else if (m == 8 && 23 ≤ d) || (m == 9 && d ≤ 22) then "Virgo"
  else if (m == 9 && 23 ≤ d) || (m == 10 && d ≤ 22) then "Libra"
  else if (m == 10 && 23 ≤ d) || (m == 11 && d ≤ 21) then "Scorpio"
  else if (m == 11 && 22 ≤ d) || (m == 12 && d ≤ 21) then "Sagittarius"
  else "Capricorn"

/-- `calendar.month_name[m]` (index 0 is the empty string). -/
def month_name (m : Nat) : String :=
  match m with
  | 1 => "January" | 2 => "February" | 3 => "March" | 4 => "April" | 5 => "May"
  | 6 => "June" | 7 => "July" | 8 => "August" | 9 => "September" | 10 => "October"
  | 11 => "November" | 12 => "December" | _ => ""

/-- `date_to_words(date, year=None)`; `if year:` treats `0` like `None`. -/
def date_to_words (d m : Nat) (year : Option Nat) : String :=
  let suffix : String :=
    if 11 ≤ d && d ≤ 13 then "th"
    else if d % 10 == 1 then "st"
    else if d % 10 == 2 then "nd"
    else if d % 10 == 3 then "rd"
    else "th"
  let dayStr := toString d ++ suffix
  match year with
  | some y =>
      if y ≠ 0 then dayStr ++ " of " ++ month_name m ++ ", " ++ toString y
      else dayStr ++ " of " ++ month_name m
  | none => dayStr ++ " of " ++ month_name m

/-! ### Facts about validity and the day count -/

theorem dateValid_elim {y m d : Nat} (h : dateValid y m d = true) :
    1 ≤ y ∧ y ≤ 9999 ∧ 1 ≤ m ∧ m ≤ 12 ∧ 1 ≤ d ∧ d ≤ daysInMonthB (isLeap y) m := by
  simp only [dateValid, daysInMonth, Bool.and_eq_true, decide_eq_true_eq] at h
  tauto

theorem dateValid_intro {y m d : Nat} (h1 : 1 ≤ y) (h2 : y ≤ 9999) (h3 : 1 ≤ m)
    (h4 : m ≤ 12) (h5 : 1 ≤ d) (h6 : d ≤ daysInMonthB (isLeap y) m) :
    dateValid y m d = true := by
  simp only [dateValid, daysInMonth, Bool.and_eq_true, decide_eq_true_eq]
  tauto

/-- A day/month valid in one year is valid in any year 1..9999 unless it is
February 29. -/
theorem dateValid_any_year {y m d : Nat} (h : dateValid y m d = true)
    (hne : ¬(m = 2 ∧ d = 29)) (y' : Nat) (h1 : 1 ≤ y') (h2 : y' ≤ 9999) :
    dateValid y' m d = true := by
  obtain ⟨_, _, hm1, hm2, hd1, hd2⟩ := dateValid_elim h
  refine dateValid_intro h1 h2 hm1 hm2 hd1 ?_
  by_cases hm : m = 2
  · subst hm
    have h29 : d ≠ 29 := fun hd => hne ⟨rfl, hd⟩
    have e1 : daysInMonthB (isLeap y) 2 = if isLeap y then 29 else 28 := by
      cases isLeap y <;> rfl
    have e2 : daysInMonthB (isLeap y') 2 = if isLeap y' then 29 else 28 := by
      cases isLeap y' <;> rfl
    rw [e1] at hd2
    rw [e2]
    split_ifs at hd2 ⊢ <;> omega
  · rw [daysInMonthB_eq_of_ne_two (isLeap y') (isLeap y) m hm]
    exact hd2

/-- Only February 29 can be valid in one year and invalid in another. -/
theorem dateValid_vary_feb29 {y y' m d : Nat} (h : dateValid y m d = true)
    (h' : dateValid y' m d = false) (h1 : 1 ≤ y') (h2 : y' ≤ 9999) :
    m = 2 ∧ d = 29 := by
  by_contra hne
  exact absurd (dateValid_any_year h hne y' h1 h2) (by simp [h'])

theorem dateValid_feb29_iff (y : Nat) :
    dateValid y 2 29 = true ↔ 1 ≤ y ∧ y ≤ 9999 ∧ isLeap y = true := by
  simp only [dateValid, daysInMonth, daysInMonthB, Bool.and_eq_true, decide_eq_true_eq]
  cases h : isLeap y <;> simp

theorem dayOfYear_bounds {y m d : Nat} (h : dateValid y m d = true) :
    1 ≤ dayOfYear y m d ∧ dayOfYear y m d ≤ yearLength y := by
  obtain ⟨_, _, hm1, hm2, hd1, hd2⟩ := dateValid_elim h
  have := dayOfYearB_bounds (isLeap y) m d hm1 hm2 hd1 hd2
  unfold dayOfYear yearLength
  omega

theorem daysBeforeYear_mono {a b : Nat} (ha : 1 ≤ a) (hab : a ≤ b) :
    daysBeforeYear a ≤ daysBeforeYear b := by
  have := daysBeforeYear_add a (b - a) ha
  have hb : a + (b - a) = b := by omega
  rw [hb] at this
  omega

/-- A valid date of a strictly later year has a strictly larger day number. -/
theorem rataDie_lt_next_years {y rm rd y' m d : Nat}
    (href : dateValid y rm rd = true) (h' : dateValid y' m d = true)
    (hlt : y < y') : rataDie y rm rd < rataDie y' m d := by
  obtain ⟨hy1, _, _⟩ := dateValid_elim href
  have hb1 := dayOfYear_bounds href
  have hb2 := dayOfYear_bounds h'
  have hstep := daysBeforeYear_step y hy1
  have hmono : daysBeforeYear (y + 1) ≤ daysBeforeYear y' := daysBeforeYear_mono (by omega) (by omega)
  unfold rataDie at *
  omega

/-! ### `nextValidYear` search lemmas -/

theorem nextValidYear_spec (m d : Nat) : ∀ fuel y₀ y,
    nextValidYear m d fuel y₀ = some y →
    dateValid y m d = true ∧ y₀ ≤ y ∧ y < y₀ + fuel ∧
      ∀ z, y₀ ≤ z → z < y → dateValid z m d = false := by
  intro fuel
  induction fuel with
  | zero => intro y₀ y h; simp [nextValidYear] at h
  | succ fuel ih =>
    intro y₀ y h
    unfold nextValidYear at h
    by_cases hv : dateValid y₀ m d = true
    · rw [if_pos hv] at h
      obtain rfl : y₀ = y := by simpa using h
      exact ⟨hv, le_refl _, by omega, fun z h1 h2 => by omega⟩
    · rw [if_neg hv] at h
      obtain ⟨hvalid, hle, hlt, hmin⟩ := ih (y₀ + 1) y h
      refine ⟨hvalid, by omega, by omega, fun z h1 h2 => ?_⟩
      by_cases hz : z = y₀
      · subst hz; simpa using hv
      · exact hmin z (by omega) h2

theorem nextValidYear_some (m d : Nat) : ∀ fuel y₀,
    (∃ k, k < fuel ∧ dateValid (y₀ + k) m d = true) →
    ∃ y, nextValidYear m d fuel y₀ = some y := by
  intro fuel
  induction fuel with
  | zero => rintro y₀ ⟨k, hk, _⟩; omega
  | succ fuel ih =>
    rintro y₀ ⟨k, hk, hv⟩
    unfold nextValidYear
    by_cases h0 : dateValid y₀ m d = true
    · exact ⟨y₀, by rw [if_pos h0]⟩
    · rw [if_neg h0]
      apply ih (y₀ + 1)
      have hkpos : 1 ≤ k := by
        rcases Nat.eq_zero_or_pos k with rfl | h
        · simp at hv; exact absurd hv h0
        · omega
      exact ⟨k - 1, by omega, by rw [show y₀ + 1 + (k - 1) = y₀ + k by omega]; exact hv⟩

theorem check_iff (d m : Nat) (ref : SimpleDate) :
    check_if_birthday_today d m ref = true ↔ d = ref.day ∧ m = ref.month := by
  simp [check_if_birthday_today]

/-- For a day/month valid in some year, the roll-forward search from any year
in range finds a valid year within its fuel of 8. -/
theorem rollForward_finds (m d y₀ : Nat) (hdm : dateValid 2000 m d = true)
    (hy1 : 1 ≤ y₀) (hy : y₀ + 8 ≤ 9999) :
    ∃ y, nextValidYear m d 8 (y₀ + 1) = some y := by
  apply nextValidYear_some
  by_cases hfeb : m = 2 ∧ d = 29
  · obtain ⟨rfl, rfl⟩ := hfeb
    obtain ⟨k, hk1, hk8, hleap⟩ := leap_within_eight y₀
    refine ⟨k - 1, by omega, ?_⟩
    rw [show y₀ + 1 + (k - 1) = y₀ + k by omega]
    exact (dateValid_feb29_iff _).mpr ⟨by omega, by omega, hleap⟩
  · exact ⟨0, by omega, by simpa using dateValid_any_year hdm hfeb (y₀ + 1) (by omega) (by omega)⟩

/-- C2 (amended): for a reference date and a day/month pair valid in some
year, `calculate_days_until_birthday` returns a value `v ≥ 0` with `v = 0`
exactly when `check_if_birthday_today` holds; the upper bound `v ≤ 366` of the
claim holds for every day/month pair other than February 29 (for Feb-29 the
roll-forward can skip several years, see the counterexample). -/
theorem daysUntil_bounds_zero_iff (d m : Nat) (ref : SimpleDate)
    (href : ref.valid = true) (hdm : dateValid 2000 m d = true)
    (hy : ref.year + 8 ≤ 9999) :
    ∃ v : Int, calculate_days_until_birthday d m ref = some v ∧ 0 ≤ v ∧
      (v = 0 ↔ check_if_birthday_today d m ref = true) ∧
      (¬(m = 2 ∧ d = 29) → v ≤ 366) := by
  obtain ⟨ry, rm, rd⟩ := ref
  unfold SimpleDate.valid at href
  simp only at href hy ⊢
  obtain ⟨hry1, hry9, hrm1, hrm2, hrd1, hrd2⟩ := dateValid_elim href
  have hcheck : check_if_birthday_today d m ⟨ry, rm, rd⟩ = true ↔ d = rd ∧ m = rm :=
    check_iff d m ⟨ry, rm, rd⟩
  by_cases hv : dateValid ry m d = true
  · obtain ⟨_, _, hm1, hm2, hd1, hd2⟩ := dateValid_elim hv
    by_cases hlt : rataDie ry m d < rataDie ry rm rd
    · have hnecheck : ¬check_if_birthday_today d m ⟨ry, rm, rd⟩ = true := by
        rw [hcheck]
        rintro ⟨rfl, rfl⟩
        omega
      by_cases hv1 : dateValid (ry + 1) m d = true
      · refine ⟨(rataDie (ry + 1) m d : Int) - rataDie ry rm rd, ?_, ?_, ?_, ?_⟩
        · simp only [calculate_days_until_birthday]
          rw [if_pos hv, if_pos hlt, if_pos hv1]
        · have := rataDie_lt_next_years href hv1 (by omega)
          omega
        · constructor
          · intro h0
            have := rataDie_lt_next_years href hv1 (by omega)
            omega
          · intro hc
            exact absurd hc hnecheck
        · intro hne
          have hdoylt : dayOfYear ry m d < dayOfYear ry rm rd := by
            unfold rataDie at hlt
            omega
          have hdoyref := dayOfYear_bounds href
          have hdoy1 := dayOfYear_bounds hv1
          have hshift : daysBeforeMonthB (isLeap (ry + 1)) m ≤ daysBeforeMonthB (isLeap ry) m + 1 :=
            daysBeforeMonthB_le_succ (isLeap ry) (isLeap (ry + 1)) m (by omega)
          have hstep := daysBeforeYear_step ry hry1
          have hyl : yearLength ry ≤ 366 := by unfold yearLength; split <;> omega
          unfold rataDie dayOfYear at *
          omega
      · have hfeb : m = 2 ∧ d = 29 :=
          dateValid_vary_feb29 hv (by simpa using hv1) (by omega) (by omega)
        obtain ⟨y, hnvy⟩ := rollForward_finds m d ry hdm hry1 (by omega)
        obtain ⟨hyv, hyle, hylt, _⟩ := nextValidYear_spec m d 8 (ry + 1) y hnvy
        refine ⟨(rataDie y m d : Int) - rataDie ry rm rd, ?_, ?_, ?_, ?_⟩
        · simp only [calculate_days_until_birthday]
          rw [if_pos hv, if_pos hlt, if_neg (by simp [hv1]), hnvy]
          rfl
        · have := rataDie_lt_next_years href hyv (by omega)
          omega
        · constructor
          · intro h0
            have := rataDie_lt_next_years href hyv (by omega)
            omega
          · intro hc
            exact absurd hc hnecheck
        · intro hne
          exact absurd hfeb hne
    · refine ⟨(rataDie ry m d : Int) - rataDie ry rm rd, ?_, ?_, ?_, ?_⟩
      · simp only [calculate_days_until_birthday]
        rw [if_pos hv, if_neg hlt]
      · omega
      · constructor
        · intro h0
          have heqn : rataDie ry m d = rataDie ry rm rd := by omega
          have hdoy : daysBeforeMonthB (isLeap ry) m + d = daysBeforeMonthB (isLeap ry) rm + rd := by
            unfold rataDie dayOfYear at heqn
            omega
          obtain ⟨hmm, hdd⟩ := dayOfYearB_inj (isLeap ry) m d rm rd hm1 hm2 hd1 hd2
            hrm1 hrm2 hrd1 hrd2 hdoy
          rw [hcheck]
          exact ⟨hdd, hmm⟩
        · intro hc
          obtain ⟨rfl, rfl⟩ := hcheck.mp hc
          omega
      · intro hne
        have hdoyref := dayOfYear_bounds href
        have hdoym := dayOfYear_bounds hv
        have hyl : yearLength ry ≤ 366 := by unfold yearLength; split <;> omega
        unfold rataDie at *
        omega
  · have hfeb : m = 2 ∧ d = 29 := by
      obtain ⟨h2000a, h2000b, hm1, hm2, hd1, hd2⟩ := dateValid_elim hdm
      exact dateValid_vary_feb29 hdm (by simpa using hv) hry1 hry9
    obtain ⟨y, hnvy⟩ := rollForward_finds m d ry hdm hry1 (by omega)
    obtain ⟨hyv, hyle, hylt, _⟩ := nextValidYear_spec m d 8 (ry + 1) y hnvy
    refine ⟨(rataDie y m d : Int) - rataDie ry rm rd, ?_, ?_, ?_, ?_⟩
    · simp only [calculate_days_until_birthday]
      rw [if_neg (by simp [hv]), hnvy]
      rfl
    · have := rataDie_lt_next_years href hyv (by omega)
      omega
    · constructor
      · intro h0
        have := rataDie_lt_next_years href hyv (by omega)
        omega
      · intro hc
        obtain ⟨rfl, rfl⟩ := hcheck.mp hc
        exact absurd href (by simp [hv])
    · intro hne
      exact absurd hfeb hne

/-- C2, upper bound as claimed: a Feb-29 birthday checked one day after
Feb 29 of a leap year rolls forward to the next leap year, 1460 days away,
outside the claimed interval `[0, 366]`. -/
theorem daysUntil_bounds_counterexample :
    calculate_days_until_birthday 29 2 ⟨2024, 3, 1⟩ = some 1460 ∧ (366 : Int) < 1460 := by
  constructor
  · decide
  · decide

/-- C2 witness: the amended theorem applied at birthday 7/5 against reference
2024-03-01. -/
theorem daysUntil_bounds_witness :
    ∃ v : Int, calculate_days_until_birthday 7 5 ⟨2024, 3, 1⟩ = some v ∧ 0 ≤ v ∧
      (v = 0 ↔ check_if_birthday_today 7 5 ⟨2024, 3, 1⟩ = true) ∧
      (¬(5 = 2 ∧ 7 = 29) → v ≤ 366) :=
  daysUntil_bounds_zero_iff 7 5 ⟨2024, 3, 1⟩ (by decide) (by decide) (by decide)

/-- C3 (amended): for a Feb-29 birthday and a reference date in a non-leap
year, the roll-forward loop terminates without raising at the next leap year,
which lies within 8 years of the reference year (the claimed bound of 4 years
fails around the non-leap century 2100), and the result is the positive day
difference to that year's Feb 29. -/
theorem feb29_rollforward (ref : SimpleDate) (href : ref.valid = true)
    (hleap : isLeap ref.year = false) (hy : ref.year + 8 ≤ 9999) :
    ∃ y v, calculate_days_until_birthday 29 2 ref = some v ∧
      isLeap y = true ∧ ref.year < y ∧ y ≤ ref.year + 8 ∧
      (∀ z, ref.year < z → z < y → isLeap z = false) ∧
      v = (rataDie y 2 29 : Int) - rataDie ref.year ref.month ref.day ∧ 1 ≤ v := by
  obtain ⟨ry, rm, rd⟩ := ref
  unfold SimpleDate.valid at href
  simp only at href hleap hy ⊢
  obtain ⟨hry1, hry9, _⟩ := dateValid_elim href
  have hv : dateValid ry 2 29 = false := by
    rcases h : dateValid ry 2 29 with _ | _
    · rfl
    · obtain ⟨_, _, hl⟩ := (dateValid_feb29_iff ry).mp h
      rw [hl] at hleap
      exact absurd hleap (by simp)
  obtain ⟨y, hnvy⟩ := rollForward_finds 2 29 ry (by decide) hry1 (by omega)
  obtain ⟨hyv, hyle, hylt, hmin⟩ := nextValidYear_spec 2 29 8 (ry + 1) y hnvy
  have hyleap : isLeap y = true := ((dateValid_feb29_iff y).mp hyv).2.2
  refine ⟨y, (rataDie y 2 29 : Int) - rataDie ry rm rd, ?_, hyleap, by omega, by omega, ?_, rfl, ?_⟩
  · simp only [calculate_days_until_birthday]
    rw [if_neg (by simp [hv]), hnvy]
    rfl
  · intro z hz1 hz2
    have hfz := hmin z (by omega) hz2
    rcases h : isLeap z with _ | _
    · rfl
    · have htz : dateValid z 2 29 = true := (dateValid_feb29_iff z).mpr ⟨by omega, by omega, h⟩
      rw [hfz] at htz
      exact absurd htz (by simp)
  · have := rataDie_lt_next_years href hyv (by omega)
    omega

/-- C3, claimed 4-year bound: for reference 2097-03-01 (the year 2100 is not
a leap year) no valid Feb 29 exists within 4 years of the reference year, and
the code instead returns the 2555-day difference to Feb 29, 2104. -/
theorem feb29_rollforward_counterexample :
    calculate_days_until_birthday 29 2 ⟨2097, 3, 1⟩ = some 2555 ∧
      dateValid 2098 2 29 = false ∧ dateValid 2099 2 29 = false ∧
      dateValid 2100 2 29 = false ∧ dateValid 2101 2 29 = false ∧
      (1462 : Int) < 2555 := by
  refine ⟨by decide, by decide, by decide, by decide, by decide, by decide⟩

/-! ## AnnouncementLedger: `utils/storage.py`

The tracking directory holds one marker file per calendar day, named
`announced_YYYY-MM-DD.txt`, one announced user id per line.  It is modelled
as a list of `(date key, lines)` pairs; the `announced_` filename prefix and
`.txt` suffix are common to every marker file and are dropped from the model.
The date key every storage function computes via
`datetime.now().strftime("%Y-%m-%d")` is the explicit `today` argument. -/

abbrev TrackingDir := List (String × List String)

/-- `cleanup_old_announcement_files()`: remove every marker file whose date is
not today's. -/
def cleanup_old_announcement_files (today : String) (dir : TrackingDir) : TrackingDir :=
  dir.filter (fun f => f.1 == today)

/-- `get_announced_birthdays_today()`: the lines of today's marker file, or
the empty list when the file does not exist. -/
def get_announced_birthdays_today (today : String) (dir : TrackingDir) : List String :=
  match dir.find? (fun f => f.1 == today) with
  | some f => f.2
  | none => []

/-- `mark_birthday_announced(user_id)`: append one line to today's marker
file, creating the file when missing. -/
def mark_birthday_announced (today u : String) : TrackingDir → TrackingDir
  | [] => [(today, [u])]
  | (k, vs) :: fs =>
      if k == today then (k, vs ++ [u]) :: fs
      else (k, vs) :: mark_birthday_announced today u fs

/-! ## DailyScheduler: `daily` in `services/birthday.py` -/

/-- One observable step of a `daily` run, in execution order.  A trace that
ends in `raiseDateWords u` is a run that aborted at subject `u` with the
uncaught `ValueError` of `date_to_words`: no later event happens and the
Python function never returns. -/
inductive Event
  | loadBirthdays
  | rotate
  | readAnnounced
  | skipAnnounced (u : String)
  | deliver (u : String) (ok : Bool)
  | mark (u : String)
  | raiseDateWords (u : String)
deriving DecidableEq, Repr

/-- One entry of the birthdays store: user id, day, month, optional year. -/
abbrev BirthdayRecord := String × Nat × Nat × Option Nat

/-- `date_to_words(date, year)` begins with
`datetime.strptime(date, "%d/%m")`, which builds `datetime(1900, month, day)`
and raises `ValueError` exactly when that date is invalid; 1900 is not a
leap year, so a stored `29/02` raises.  The call sits in `daily`'s loop body
under no `try`, so the exception aborts the whole run. -/
def date_words_raises (d m : Nat) : Bool := !dateValid 1900 m d

/-- The `for user_id, birthday_data in birthdays.items()` loop of `daily`.
`sendOk u` is the outcome of `send_message` inside
`send_birthday_announcement` (which swallows both generation errors, via its
own fallback, and Slack delivery errors, which `send_message` catches and
turns into `False`) — the loop's control flow never depends on it.  In the
matching branch the source increments `birthday_count`, then calls
`date_to_words` — which raises for a stored date with no 1900 counterpart —
and only then delivers and marks; on a raise the loop stops: the tuple
carries the directory state already on disk, the count at the raise (which
the source never returns), and the trace up to and including the raise. -/
def daily_loop (today : String) (ref : SimpleDate) (sendOk : String → Bool)
    (announced : List String) :
    List BirthdayRecord → TrackingDir → TrackingDir × Nat × List Event
  | [], dir => (dir, 0, [])
  | (u, d, m, _y) :: rest, dir =>
    if announced.contains u then
      let r := daily_loop today ref sendOk announced rest dir
      (r.1, r.2.1 + 1, Event.skipAnnounced u :: r.2.2)
    else if check_if_birthday_today d m ref then
      if date_words_raises d m then
        (dir, 1, [Event.raiseDateWords u])
      else
        let dir1 := mark_birthday_announced today u dir
        let r := daily_loop today ref sendOk announced rest dir1
        (r.1, r.2.1 + 1, Event.deliver u (sendOk u) :: Event.mark u :: r.2.2)
    else
      daily_loop today ref sendOk announced rest dir

/-- `daily(app, moment)`: load the birthdays, rotate the marker files, read
today's announced set once, then scan every record.  Returns the final
tracking directory, the handled count, and the event trace; a trace ending
in `Event.raiseDateWords` is a run that aborted with an uncaught
`ValueError` and returned nothing. -/
def daily (today : String) (ref : SimpleDate) (sendOk : String → Bool)
    (birthdays : List BirthdayRecord) (dir : TrackingDir) :
    TrackingDir × Nat × List Event :=
  let dir0 := cleanup_old_announcement_files today dir
  let announced := get_announced_birthdays_today today dir0
  let r := daily_loop today ref sendOk announced birthdays dir0
  (r.1, r.2.1, Event.loadBirthdays :: Event.rotate :: Event.readAnnounced :: r.2.2)

/-- Number of `deliver u _` events in a trace. -/
def deliveries (u : String) : List Event → Nat
  | [] => 0
  | Event.deliver v _ :: tr => (if v == u then 1 else 0) + deliveries u tr
  | _ :: tr => deliveries u tr

/-- Number of `mark u` events in a trace. -/
def marksOf (u : String) : List Event → Nat
  | [] => 0
  | Event.mark v :: tr => (if v == u then 1 else 0) + marksOf u tr
  | _ :: tr => marksOf u tr

/-- Number of marker lines for `u` dated `today` across the directory. -/
def markCount (today u : String) (dir : TrackingDir) : Nat :=
  ((dir.filter (fun f => f.1 == today)).map Prod.snd).flatten.count u

/-- C3 witness: the amended theorem applied at reference 2023-03-01. -/
theorem feb29_rollforward_witness :
    ∃ y v, calculate_days_until_birthday 29 2 ⟨2023, 3, 1⟩ = some v ∧
      isLeap y = true ∧ 2023 < y ∧ y ≤ 2023 + 8 ∧
      (∀ z, 2023 < z → z < y → isLeap z = false) ∧
      v = (rataDie y 2 29 : Int) - rataDie 2023 3 1 ∧ 1 ≤ v :=
  feb29_rollforward ⟨2023, 3, 1⟩ (by decide) (by decide) (by decide)

/-! ### Ledger lemmas -/

theorem get_announced_cons (today k : String) (vs : List String) (fs : TrackingDir) :
    get_announced_birthdays_today today ((k, vs) :: fs) =
      if k == today then vs else get_announced_birthdays_today today fs := by
  cases hk : k == today with
  | true => simp [get_announced_birthdays_today, List.find?_cons_of_pos, hk]
  | false => simp [get_announced_birthdays_today, List.find?_cons_of_neg, hk]

theorem cleanup_cons (today k : String) (vs : List String) (fs : TrackingDir) :
    cleanup_old_announcement_files today ((k, vs) :: fs) =
      if k == today then (k, vs) :: cleanup_old_announcement_files today fs
      else cleanup_old_announcement_files today fs := by
  cases hk : k == today with
  | true => simp [cleanup_old_announcement_files, List.filter_cons, hk]
  | false => simp [cleanup_old_announcement_files, List.filter_cons, hk]

theorem markCount_cons (today u k : String) (vs : List String) (fs : TrackingDir) :
    markCount today u ((k, vs) :: fs) =
      (if k == today then vs.count u else 0) + markCount today u fs := by
  cases hk : k == today with
  | true => simp [markCount, List.filter_cons, hk, List.count_append]
  | false => simp [markCount, List.filter_cons, hk]

theorem markCount_mark_same (today u : String) (dir : TrackingDir) :
    markCount today u (mark_birthday_announced today u dir) =
      markCount today u dir + 1 := by
  induction dir with
  | nil => simp [mark_birthday_announced, markCount_cons, markCount]
  | cons f fs ih =>
    obtain ⟨k, vs⟩ := f
    cases hk : k == today with
    | true =>
      simp only [mark_birthday_announced, hk, if_pos, markCount_cons, List.count_append]
      simp
      omega
    | false =>
      simp only [mark_birthday_announced, hk, Bool.false_eq_true, if_false, markCount_cons]
      omega

theorem markCount_mark_other (today u v : String) (hne : v ≠ u) (dir : TrackingDir) :
    markCount today v (mark_birthday_announced today u dir) =
      markCount today v dir := by
  have hcnt : List.count v [u] = 0 := by simp [hne]
  induction dir with
  | nil => simp [mark_birthday_announced, markCount_cons, markCount, hcnt]
  | cons f fs ih =>
    obtain ⟨k, vs⟩ := f
    cases hk : k == today with
    | true =>
      simp only [mark_birthday_announced, hk, if_pos, markCount_cons, List.count_append]
      simp [hcnt]
    | false =>
      simp only [mark_birthday_announced, hk, Bool.false_eq_true, if_false, markCount_cons]
      omega

theorem markCount_zero_of_key_absent (today u : String) (dir : TrackingDir)
    (h : today ∉ dir.map Prod.fst) : markCount today u dir = 0 := by
  induction dir with
  | nil => rfl
  | cons f fs ih =>
    obtain ⟨k, vs⟩ := f
    simp only [List.map_cons, List.mem_cons] at h
    push_neg at h
    rw [markCount_cons, if_neg (by simpa using (Ne.symm h.1)), ih h.2]

theorem markCount_eq_announced_count (today u : String) (dir : TrackingDir)
    (hnd : (dir.map Prod.fst).Nodup) :
    markCount today u dir = (get_announced_birthdays_today today dir).count u := by
  induction dir with
  | nil => rfl
  | cons f fs ih =>
    obtain ⟨k, vs⟩ := f
    simp only [List.map_cons, List.nodup_cons] at hnd
    rw [markCount_cons, get_announced_cons]
    cases hk : k == today with
    | true =>
      have hkeq : k = today := by simpa using hk
      subst hkeq
      simp only [if_pos]
      rw [markCount_zero_of_key_absent _ _ _ hnd.1]
      omega
    | false =>
      simp only [Bool.false_eq_true, if_false]
      rw [ih hnd.2]
      omega

theorem get_announced_cleanup (today : String) (dir : TrackingDir) :
    get_announced_birthdays_today today (cleanup_old_announcement_files today dir) =
      get_announced_birthdays_today today dir := by
  induction dir with
  | nil => rfl
  | cons f fs ih =>
    obtain ⟨k, vs⟩ := f
    rw [cleanup_cons]
    cases hk : k == today with
    | true =>
      rw [if_pos rfl, get_announced_cons, get_announced_cons, if_pos hk, if_pos hk]
    | false =>
      rw [if_neg (by simp [hk]), get_announced_cons, if_neg (by simp [hk]), ih]

theorem markCount_cleanup (today u : String) (dir : TrackingDir) :
    markCount today u (cleanup_old_announcement_files today dir) =
      markCount today u dir := by
  unfold markCount cleanup_old_announcement_files
  rw [List.filter_filter]
  simp

theorem cleanup_keys_nodup (today : String) (dir : TrackingDir)
    (h : (dir.map Prod.fst).Nodup) :
    ((cleanup_old_announcement_files today dir).map Prod.fst).Nodup :=
  (List.Sublist.map Prod.fst (List.filter_sublist dir)).nodup h

theorem mark_keys_mem (today u x : String) (dir : TrackingDir)
    (h : x ∈ (mark_birthday_announced today u dir).map Prod.fst) :
    x ∈ dir.map Prod.fst ∨ x = today := by
  induction dir with
  | nil =>
    simp [mark_birthday_announced] at h
    exact Or.inr h
  | cons f fs ih =>
    obtain ⟨k, vs⟩ := f
    cases hk : k == today with
    | true =>
      simp only [mark_birthday_announced, hk, if_pos, List.map_cons, List.mem_cons] at h
      simp only [List.map_cons, List.mem_cons]
      exact Or.inl h
    | false =>
      simp only [mark_birthday_announced, hk, Bool.false_eq_true, if_false,
        List.map_cons, List.mem_cons] at h
      rcases h with h | h
      · exact Or.inl (by simp [h])
      · rcases ih h with h' | h'
        · exact Or.inl (by simp [h'])
        · exact Or.inr h'

theorem mark_preserves_nodup (today u : String) (dir : TrackingDir)
    (h : (dir.map Prod.fst).Nodup) :
    ((mark_birthday_announced today u dir).map Prod.fst).Nodup := by
  induction dir with
  | nil => simp [mark_birthday_announced]
  | cons f fs ih =>
    obtain ⟨k, vs⟩ := f
    simp only [List.map_cons, List.nodup_cons] at h
    cases hk : k == today with
    | true =>
      simp only [mark_birthday_announced, hk, if_pos, List.map_cons, List.nodup_cons]
      exact ⟨h.1, h.2⟩
    | false =>
      simp only [mark_birthday_announced, hk, Bool.false_eq_true, if_false,
        List.map_cons, List.nodup_cons]
      refine ⟨fun hmem => ?_, ih h.2⟩
      rcases mark_keys_mem today u k fs hmem with h' | h'
      · exact h.1 h'
      · subst h'
        simp at hk

theorem mark_all_today (today u : String) (dir : TrackingDir)
    (h : ∀ f ∈ dir, f.1 = today) :
    ∀ f ∈ mark_birthday_announced today u dir, f.1 = today := by
  induction dir with
  | nil =>
    intro f hf
    simp [mark_birthday_announced] at hf
    subst hf
    rfl
  | cons g fs ih =>
    obtain ⟨k, vs⟩ := g
    intro f hf
    cases hk : k == today with
    | true =>
      simp only [mark_birthday_announced, hk, if_pos, List.mem_cons] at hf
      rcases hf with rfl | hf
      · simpa using hk
      · exact h f (by simp [hf])
    | false =>
      simp only [mark_birthday_announced, hk, Bool.false_eq_true, if_false,
        List.mem_cons] at hf
      rcases hf with rfl | hf
      · exact h (k, vs) (by simp)
      · exact ih (fun g hg => h g (by simp [hg])) f hf

theorem cleanup_only_today (today : String) (dir : TrackingDir) :
    ∀ f ∈ cleanup_old_announcement_files today dir, f.1 = today := by
  intro f hf
  have := List.of_mem_filter hf
  simpa using this

theorem cleanup_of_all_today (today : String) (dir : TrackingDir)
    (h : ∀ f ∈ dir, f.1 = today) :
    cleanup_old_announcement_files today dir = dir :=
  List.filter_eq_self.mpr (fun f hf => by simp [h f hf])

/-! ### Scheduler loop lemmas -/

theorem daily_loop_no_ctrl (today : String) (ref : SimpleDate) (sendOk : String → Bool)
    (announced : List String) :
    ∀ (bd : List BirthdayRecord) (dir : TrackingDir),
      Event.rotate ∉ (daily_loop today ref sendOk announced bd dir).2.2 ∧
      Event.readAnnounced ∉ (daily_loop today ref sendOk announced bd dir).2.2 := by
  intro bd
  induction bd with
  | nil => intro dir; simp [daily_loop]
  | cons rec rest ih =>
    intro dir
    obtain ⟨v, d', m', yr'⟩ := rec
    simp only [daily_loop]
    by_cases hav : announced.contains v = true
    · rw [if_pos hav]
      obtain ⟨h1, h2⟩ := ih dir
      exact ⟨by simp [h1], by simp [h2]⟩
    · rw [if_neg hav]
      by_cases hcv : check_if_birthday_today d' m' ref = true
      · rw [if_pos hcv]
        by_cases hr : date_words_raises d' m' = true
        · rw [if_pos hr]
          exact ⟨by simp, by simp⟩
        · rw [if_neg hr]
          obtain ⟨h1, h2⟩ := ih (mark_birthday_announced today v dir)
          exact ⟨by simp [h1], by simp [h2]⟩
      · rw [if_neg hcv]
        exact ih dir

/-- C5: after rotation no marker file of a different date remains, and within
one `daily` run the rotate step precedes the single read of the announced
set, which both precede every per-subject event. -/
theorem rotation_fresh_and_first (today : String) (ref : SimpleDate)
    (sendOk : String → Bool) (bd : List BirthdayRecord) (dir : TrackingDir) :
    (∀ f ∈ cleanup_old_announcement_files today dir, f.1 = today) ∧
    ∃ tr, (daily today ref sendOk bd dir).2.2 =
        Event.loadBirthdays :: Event.rotate :: Event.readAnnounced :: tr ∧
      Event.rotate ∉ tr ∧ Event.readAnnounced ∉ tr := by
  obtain ⟨h1, h2⟩ := daily_loop_no_ctrl today ref sendOk
    (get_announced_birthdays_today today (cleanup_old_announcement_files today dir))
    bd (cleanup_old_announcement_files today dir)
  exact ⟨cleanup_only_today today dir, _, rfl, h1, h2⟩

/-- C4: same-day idempotence collapses at a stored leap-day birthday.  On
reference 2024-02-29 (a real calendar day) the subject's stored `29/02`
matches and the announced set is empty, yet the run raises in
`date_to_words` — `strptime("%d/%m")` builds the invalid
`datetime(1900, 2, 29)` — before any delivery or mark, and a second run the
same day raises identically: two runs produce zero delivered announcements
and zero markers for the subject instead of exactly one of each. -/
theorem daily_twice_feb29_crash :
    check_if_birthday_today 29 2 ⟨2024, 2, 29⟩ = true ∧
    SimpleDate.valid ⟨2024, 2, 29⟩ = true ∧
    get_announced_birthdays_today "2024-02-29"
      (cleanup_old_announcement_files "2024-02-29" []) = [] ∧
    (daily "2024-02-29" ⟨2024, 2, 29⟩ (fun _ => true)
        [("U1", 29, 2, some 1992)] []).2.2 =
      [Event.loadBirthdays, Event.rotate, Event.readAnnounced,
        Event.raiseDateWords "U1"] ∧
    deliveries "U1" (daily "2024-02-29" ⟨2024, 2, 29⟩ (fun _ => true)
      [("U1", 29, 2, some 1992)] []).2.2 = 0 ∧
    marksOf "U1" (daily "2024-02-29" ⟨2024, 2, 29⟩ (fun _ => true)
      [("U1", 29, 2, some 1992)] []).2.2 = 0 ∧
    markCount "2024-02-29" "U1" (daily "2024-02-29" ⟨2024, 2, 29⟩ (fun _ => true)
      [("U1", 29, 2, some 1992)] []).1 = 0 ∧
    (daily "2024-02-29" ⟨2024, 2, 29⟩ (fun _ => true) [("U1", 29, 2, some 1992)]
        (daily "2024-02-29" ⟨2024, 2, 29⟩ (fun _ => true)
          [("U1", 29, 2, some 1992)] []).1).2.2 =
      [Event.loadBirthdays, Event.rotate, Event.readAnnounced,
        Event.raiseDateWords "U1"] ∧
    deliveries "U1" (daily "2024-02-29" ⟨2024, 2, 29⟩ (fun _ => true)
      [("U1", 29, 2, some 1992)]
      (daily "2024-02-29" ⟨2024, 2, 29⟩ (fun _ => true)
        [("U1", 29, 2, some 1992)] []).1).2.2 = 0 ∧
    marksOf "U1" (daily "2024-02-29" ⟨2024, 2, 29⟩ (fun _ => true)
      [("U1", 29, 2, some 1992)]
      (daily "2024-02-29" ⟨2024, 2, 29⟩ (fun _ => true)
        [("U1", 29, 2, some 1992)] []).1).2.2 = 0 ∧
    markCount "2024-02-29" "U1" (daily "2024-02-29" ⟨2024, 2, 29⟩ (fun _ => true)
      [("U1", 29, 2, some 1992)]
      (daily "2024-02-29" ⟨2024, 2, 29⟩ (fun _ => true)
        [("U1", 29, 2, some 1992)] []).1).1 = 0 := by
  decide

/-- C10: the marker is NOT recorded for every matching, not-yet-announced
subject: for a stored `29/02` subject on reference 2024-02-29 the run raises
in `date_to_words` before `send_birthday_announcement` and
`mark_birthday_announced` — no delivery is attempted (with `sendOk` it would
have failed), no mark event occurs, no marker line is written, and a rerun
the same day reaches the subject again (raising identically) instead of
skipping them. -/
theorem mark_never_reached_feb29 :
    check_if_birthday_today 29 2 ⟨2024, 2, 29⟩ = true ∧
    get_announced_birthdays_today "2024-02-29"
      (cleanup_old_announcement_files "2024-02-29" []) = [] ∧
    (daily "2024-02-29" ⟨2024, 2, 29⟩ (fun _ => false)
        [("U1", 29, 2, some 1992)] []).2.2 =
      [Event.loadBirthdays, Event.rotate, Event.readAnnounced,
        Event.raiseDateWords "U1"] ∧
    deliveries "U1" (daily "2024-02-29" ⟨2024, 2, 29⟩ (fun _ => false)
      [("U1", 29, 2, some 1992)] []).2.2 = 0 ∧
    marksOf "U1" (daily "2024-02-29" ⟨2024, 2, 29⟩ (fun _ => false)
      [("U1", 29, 2, some 1992)] []).2.2 = 0 ∧
    markCount "2024-02-29" "U1" (daily "2024-02-29" ⟨2024, 2, 29⟩ (fun _ => false)
      [("U1", 29, 2, some 1992)] []).1 = 0 ∧
    Event.skipAnnounced "U1" ∉
      (daily "2024-02-29" ⟨2024, 2, 29⟩ (fun _ => false) [("U1", 29, 2, some 1992)]
        (daily "2024-02-29" ⟨2024, 2, 29⟩ (fun _ => false)
          [("U1", 29, 2, some 1992)] []).1).2.2 ∧
    Event.raiseDateWords "U1" ∈
      (daily "2024-02-29" ⟨2024, 2, 29⟩ (fun _ => false) [("U1", 29, 2, some 1992)]
        (daily "2024-02-29" ⟨2024, 2, 29⟩ (fun _ => false)
          [("U1", 29, 2, some 1992)] []).1).2.2 := by
  decide

/-- C9 (amended): the DateEngine functions that take a reference date
(`check_if_birthday_today`, `calculate_days_until_birthday`) read the ambient
clock only when the reference is omitted, and are clock-independent whenever
it is supplied; `extract_date`, `date_to_words` and `get_star_sign` take no
clock input at all in this embedding, so they are deterministic in their
explicit arguments by construction.  The exception is `calculate_age`, which
the claim also covers: it has no reference parameter and always reads
`datetime.now()` (see the counterexample). -/
theorem dateEngine_clock_independence (d m : Nat) (r : SimpleDate)
    (now now' : SimpleDate) :
    check_if_birthday_today_impl d m (some r) now =
      check_if_birthday_today_impl d m (some r) now' ∧
    calculate_days_until_birthday_impl d m (some r) now =
      calculate_days_until_birthday_impl d m (some r) now' ∧
    check_if_birthday_today_impl d m none now = check_if_birthday_today d m now ∧
    calculate_days_until_birthday_impl d m none now =
      calculate_days_until_birthday d m now :=
  ⟨rfl, rfl, rfl, rfl⟩

/-- C9, as claimed for `calculate_age`: the function reads the ambient clock
through no explicit parameter, and two calls with identical explicit
arguments (birth year 1990, birth date 5/7) differ across that hidden read:
age 33 the day before the birthday, 34 the day after. -/
theorem dateEngine_clock_counterexample :
    calculate_age 1990 (some (5, 7)) ⟨2024, 7, 4⟩ = 33 ∧
    calculate_age 1990 (some (5, 7)) ⟨2024, 7, 6⟩ = 34 ∧
    calculate_age 1990 (some (5, 7)) ⟨2024, 7, 4⟩ ≠
      calculate_age 1990 (some (5, 7)) ⟨2024, 7, 6⟩ := by
  refine ⟨by decide, by decide, by decide⟩

/-! ## `extract_date`: the two regular expressions of `utils/date_utils.py`

`extract_date` first searches `\b(\d{2}/\d{2}/\d{4})\b` and only when that
finds nothing searches `\b(\d{2}/\d{2})(?!/\d{4})\b`.  Both patterns are
fixed-length and deterministic, so a match at position `i` is a pointwise
predicate and `re.search` returns the smallest matching `i`.  Word characters
are the ASCII fragment of `\w`; positions beyond the end of the string read
as a space, which is neither a word character nor a digit. -/

def isWordChar (c : Char) : Bool := c.isAlphanum || c == '_'

def charAt (l : List Char) (i : Nat) : Char := l.getD i ' '

def isDigitAt (l : List Char) (i : Nat) : Bool := (charAt l i).isDigit

/-- The pattern `\b(\d{2}/\d{2}/\d{4})\b` matches at position `i`. -/
def matchYearAt (l : List Char) (i : Nat) : Bool :=
  (i == 0 || !isWordChar (charAt l (i - 1))) &&
  isDigitAt l i && isDigitAt l (i + 1) && (charAt l (i + 2) == '/') &&
  isDigitAt l (i + 3) && isDigitAt l (i + 4) && (charAt l (i + 5) == '/') &&
  isDigitAt l (i + 6) && isDigitAt l (i + 7) && isDigitAt l (i + 8) &&
  isDigitAt l (i + 9) && !isWordChar (charAt l (i + 10))

/-- The pattern `\b(\d{2}/\d{2})(?!/\d{4})\b` matches at position `i`. -/
def matchBareAt (l : List Char) (i : Nat) : Bool :=
  (i == 0 || !isWordChar (charAt l (i - 1))) &&
  isDigitAt l i && isDigitAt l (i + 1) && (charAt l (i + 2) == '/') &&
  isDigitAt l (i + 3) && isDigitAt l (i + 4) &&
  !((charAt l (i + 5) == '/') && isDigitAt l (i + 6) && isDigitAt l (i + 7) &&
    isDigitAt l (i + 8) && isDigitAt l (i + 9)) &&
  !isWordChar (charAt l (i + 5))

/-- `re.search`: the leftmost position where the pattern matches. -/
def findMatch (test : List Char → Nat → Bool) (l : List Char) : Option Nat :=
  (List.range l.length).find? (test l)

def digit2 (l : List Char) (i : Nat) : Nat :=
  ((charAt l i).toNat - 48) * 10 + ((charAt l (i + 1)).toNat - 48)

def digit4 (l : List Char) (i : Nat) : Nat :=
  digit2 l i * 100 + digit2 l (i + 2)

inductive ExtractResult
  | success (day month : Nat) (year : Option Nat)
  | no_date
  | invalid_date
deriving DecidableEq, Repr

/-- `extract_date(message)`.  A `DD/MM/YYYY` match is parsed by
`strptime("%d/%m/%Y")`, which raises exactly when `dateValid` fails; a bare
`DD/MM` match is parsed by `strptime("%d/%m")`, whose default year is 1900 (a
non-leap year, so `29/02` alone is rejected). -/
def extract_date (l : List Char) : ExtractResult :=
  match findMatch matchYearAt l with
  | some i =>
      if dateValid (digit4 l (i + 6)) (digit2 l (i + 3)) (digit2 l i) then
        ExtractResult.success (digit2 l i) (digit2 l (i + 3)) (some (digit4 l (i + 6)))
      else ExtractResult.invalid_date
  | none =>
      match findMatch matchBareAt l with
      | some i =>
          if dateValid 1900 (digit2 l (i + 3)) (digit2 l i) then
            ExtractResult.success (digit2 l i) (digit2 l (i + 3)) none
          else ExtractResult.invalid_date
      | none => ExtractResult.no_date

/-- C7: when both a year-qualified and a bare date pattern occur in the text,
the year-qualified one decides the result: a calendar-valid match yields
`success` with the separated day/month and year, and a calendar-invalid one
(such as 31/02) yields `invalid_date` — the bare match is never consulted. -/
theorem extract_date_priority (l : List Char) (i j : Nat)
    (hy : findMatch matchYearAt l = some i)
    (hb : findMatch matchBareAt l = some j) :
    (dateValid (digit4 l (i + 6)) (digit2 l (i + 3)) (digit2 l i) = true →
      extract_date l = ExtractResult.success (digit2 l i) (digit2 l (i + 3))
        (some (digit4 l (i + 6)))) ∧
    (dateValid (digit4 l (i + 6)) (digit2 l (i + 3)) (digit2 l i) = false →
      extract_date l = ExtractResult.invalid_date) := by
  unfold extract_date
  rw [hy]
  constructor
  · intro hv
    simp [hv]
  · intro hv
    simp [hv]

/-- C7 witness: the text holds the invalid year-qualified date 31/02/2001 and
the valid bare date 03/04; the year-qualified match wins and the result is
`invalid_date`, the valid bare date notwithstanding. -/
theorem extract_date_priority_witness :
    (dateValid (digit4 "see 31/02/2001 or 03/04".data 10)
        (digit2 "see 31/02/2001 or 03/04".data 7)
        (digit2 "see 31/02/2001 or 03/04".data 4) = true →
      extract_date "see 31/02/2001 or 03/04".data =
        ExtractResult.success (digit2 "see 31/02/2001 or 03/04".data 4)
          (digit2 "see 31/02/2001 or 03/04".data 7)
          (some (digit4 "see 31/02/2001 or 03/04".data 10))) ∧
    (dateValid (digit4 "see 31/02/2001 or 03/04".data 10)
        (digit2 "see 31/02/2001 or 03/04".data 7)
        (digit2 "see 31/02/2001 or 03/04".data 4) = false →
      extract_date "see 31/02/2001 or 03/04".data = ExtractResult.invalid_date) :=
  extract_date_priority "see 31/02/2001 or 03/04".data 4 18 (by decide) (by decide)

/-! ## `fix_slack_formatting`: the seven `re.sub` passes

Each pattern of `fix_slack_formatting` is rewritten left to right with
non-overlapping matches and lazy groups, which for these patterns means: at
each position try to open a match; a lazy group extends to the nearest
closing delimiter (never across a newline, except for the DOTALL code-block
rule); if no close exists the position does not match and scanning moves one
character on.  The functions below implement exactly that, one per rule, and
`fix_slack_formatting` chains them in source order. -/

/-- The backtick character (written by code so that no literal backtick
appears in this file). -/
def btick : Char := Char.ofNat 96

/-- Lazy scan to the closing delimiter `d`: returns the group and the text
after the closer.  `allowNl` is the DOTALL flag for the group. -/
def findClose (d : List Char) (allowNl : Bool) : List Char → Option (List Char × List Char)
  | [] => none
  | c :: cs =>
    if d.isPrefixOf (c :: cs) then some ([], (c :: cs).drop d.length)
    else if !allowNl && c == '\n' then none
    else (findClose d allowNl cs).map (fun p => (c :: p.1, p.2))

theorem findClose_length (d : List Char) (allowNl : Bool) :
    ∀ l g rest, findClose d allowNl l = some (g, rest) →
      g.length + d.length + rest.length = l.length := by
  intro l
  induction l with
  | nil => intro g rest h; simp [findClose] at h
  | cons c cs ih =>
    intro g rest h
    unfold findClose at h
    by_cases hp : d.isPrefixOf (c :: cs) = true
    · rw [if_pos hp] at h
      injection h with h
      obtain ⟨h1, h2⟩ := Prod.mk.injEq .. ▸ h
      have hlen : d.length ≤ (c :: cs).length :=
        (List.isPrefixOf_iff_prefix.mp hp).length_le
      subst h1
      subst h2
      simp only [List.length_cons] at hlen
      simp only [List.length_drop, List.length_cons, List.length_nil]
      omega
    · rw [if_neg hp] at h
      by_cases hnl : (!allowNl && c == '\n') = true
      · rw [if_pos hnl] at h
        exact absurd h (by simp)
      · rw [if_neg hnl] at h
        cases hfc : findClose d allowNl cs with
        | none => rw [hfc] at h; exact absurd h (by simp)
        | some p =>
          rw [hfc] at h
          obtain ⟨g', rest'⟩ := p
          simp at h
          obtain ⟨h1, h2⟩ := h
          have := ih g' rest' hfc
          subst h2
          rw [← h1]
          simp only [List.length_cons]
          omega

/-- One delimiter-pair pass: rule 1 (`**` to `*`), rule 2 (`__` to `_`), and
rule 6 (triple backtick to single backtick, DOTALL).  An empty delimiter is
never used; the guard only serves termination. -/
def subDelim (d r : List Char) (allowNl : Bool) : List Char → List Char
  | [] => []
  | c :: cs =>
    if hd : d.isEmpty then c :: cs
    else if d.isPrefixOf (c :: cs) then
      match hfc : findClose d allowNl ((c :: cs).drop d.length) with
      | some (g, rest) => r ++ g ++ r ++ subDelim d r allowNl rest
      | none => c :: subDelim d r allowNl cs
    else c :: subDelim d r allowNl cs
  termination_by l => l.length
  decreasing_by
  · have hlen := findClose_length d allowNl ((c :: cs).drop d.length) g rest hfc
    have hd1 : 1 ≤ d.length := by
      cases d with
      | nil => simp at hd
      | cons x xs => simp
    simp only [List.length_drop, List.length_cons] at hlen ⊢
    omega
  · simp
  · simp

/-- Lazy scan to the next unguarded closing angle bracket for rule 5. -/
def findGt : List Char → Option (List Char × List Char)
  | [] => none
  | c :: cs =>
    if c == '>' then some ([], cs)
    else if c == '\n' then none
    else (findGt cs).map (fun p => (c :: p.1, p.2))

theorem findGt_length : ∀ l g rest, findGt l = some (g, rest) →
    g.length + 1 + rest.length = l.length := by
  intro l
  induction l with
  | nil => intro g rest h; simp [findGt] at h
  | cons c cs ih =>
    intro g rest h
    unfold findGt at h
    by_cases hc : (c == '>') = true
    · rw [if_pos hc] at h
      simp at h
      obtain ⟨h1, h2⟩ := h
      subst h1
      subst h2
      simp only [List.length_nil, List.length_cons]
      omega
    · rw [if_neg hc] at h
      by_cases hnl : (c == '\n') = true
      · rw [if_pos hnl] at h
        exact absurd h (by simp)
      · rw [if_neg hnl] at h
        cases hfc : findGt cs with
        | none => rw [hfc] at h; exact absurd h (by simp)
        | some p =>
          rw [hfc] at h
          obtain ⟨g', rest'⟩ := p
          simp at h
          obtain ⟨h1, h2⟩ := h
          have := ih g' rest' hfc
          subst h2
          rw [← h1]
          simp only [List.length_cons]
          omega

/-- Rule 5, `<(?![@!#])(.*?)>` to `\1`: strip an HTML-looking tag unless the
angle bracket opens a Slack mention, broadcast or channel token. -/
def subHtml : List Char → List Char
  | [] => []
  | c :: cs =>
    if c == '<' then
      if cs.head? == some '@' || cs.head? == some '!' || cs.head? == some '#' then
        c :: subHtml cs
      else
        match hgt : findGt cs with
        | some (g, rest) => g ++ subHtml rest
        | none => c :: subHtml cs
    else c :: subHtml cs
  termination_by l => l.length
  decreasing_by
  · simp
  · have hlen := findGt_length cs g rest hgt
    simp only [List.length_cons]
    omega
  · simp
  · simp

/-- Lazy scan to the closing parenthesis of a markdown link URL. -/
def findRParen : List Char → Option (List Char × List Char)
  | [] => none
  | c :: cs =>
    if c == ')' then some ([], cs)
    else if c == '\n' then none
    else (findRParen cs).map (fun p => (c :: p.1, p.2))

theorem findRParen_length : ∀ l g rest, findRParen l = some (g, rest) →
    g.length + 1 + rest.length = l.length := by
  intro l
  induction l with
  | nil => intro g rest h; simp [findRParen] at h
  | cons c cs ih =>
    intro g rest h
    unfold findRParen at h
    by_cases hc : (c == ')') = true
    · rw [if_pos hc] at h
      simp at h
      obtain ⟨h1, h2⟩ := h
      subst h1
      subst h2
      simp only [List.length_nil, List.length_cons]
      omega
    · rw [if_neg hc] at h
      by_cases hnl : (c == '\n') = true
      · rw [if_pos hnl] at h
        exact absurd h (by simp)
      · rw [if_neg hnl] at h
        cases hfc : findRParen cs with
        | none => rw [hfc] at h; exact absurd h (by simp)
        | some p =>
          rw [hfc] at h
          obtain ⟨g', rest'⟩ := p
          simp at h
          obtain ⟨h1, h2⟩ := h
          have := ih g' rest' hfc
          subst h2
          rw [← h1]
          simp only [List.length_cons]
          omega

/-- Backtracking search for the `](` separator of rule 3 whose URL group has
a closing parenthesis: returns link text, URL, and the remainder. -/
def findLinkClose : List Char → Option (List Char × List Char × List Char)
  | [] => none
  | c :: cs =>
    if c == '\n' then none
    else if c == ']' && cs.head? == some '(' then
      match findRParen cs.tail with
      | some (g2, rest) => some ([], g2, rest)
      | none => (findLinkClose cs).map (fun p => (c :: p.1, p.2))
    else (findLinkClose cs).map (fun p => (c :: p.1, p.2))

theorem findLinkClose_length : ∀ l g1 g2 rest,
    findLinkClose l = some (g1, g2, rest) →
    g1.length + g2.length + rest.length + 3 = l.length := by
  intro l
  induction l with
  | nil => intro g1 g2 rest h; simp [findLinkClose] at h
  | cons c cs ih =>
    intro g1 g2 rest h
    unfold findLinkClose at h
    by_cases hnl : (c == '\n') = true
    · rw [if_pos hnl] at h
      exact absurd h (by simp)
    · rw [if_neg hnl] at h
      by_cases hbr : (c == ']' && cs.head? == some '(') = true
      · rw [if_pos hbr] at h
        cases hrp : findRParen cs.tail with
        | some p =>
          rw [hrp] at h
          obtain ⟨g2', rest'⟩ := p
          simp at h
          obtain ⟨h1, h2, h3⟩ := h
          have hfr := findRParen_length cs.tail g2' rest' hrp
          have hcs : cs ≠ [] := by
            intro hc
            subst hc
            simp at hbr
          have hct : cs.tail.length + 1 = cs.length := by
            cases cs with
            | nil => exact absurd rfl hcs
            | cons x xs => simp
          subst h1
          subst h2
          subst h3
          simp only [List.length_nil, List.length_cons]
          omega
        | none =>
          rw [hrp] at h
          cases hfc : findLinkClose cs with
          | none => rw [hfc] at h; exact absurd h (by simp)
          | some p =>
            rw [hfc] at h
            obtain ⟨g1', g2', rest'⟩ := p
            simp at h
            obtain ⟨h1, h2, h3⟩ := h
            have := ih g1' g2' rest' hfc
            subst h2
            subst h3
            rw [← h1]
            simp only [List.length_cons]
            omega
      · rw [if_neg hbr] at h
        cases hfc : findLinkClose cs with
        | none => rw [hfc] at h; exact absurd h (by simp)
        | some p =>
          rw [hfc] at h
          obtain ⟨g1', g2', rest'⟩ := p
          simp at h
          obtain ⟨h1, h2, h3⟩ := h
          have := ih g1' g2' rest' hfc
          subst h2
          subst h3
          rw [← h1]
          simp only [List.length_cons]
          omega

/-- Rule 3, `\[(.*?)\]\((.*?)\)` to `<\2|\1>`: markdown links to Slack links. -/
def subLink : List Char → List Char
  | [] => []
  | c :: cs =>
    if c == '[' then
      match hlc : findLinkClose cs with
      | some (g1, g2, rest) => '<' :: g2 ++ '|' :: g1 ++ '>' :: subLink rest
      | none => c :: subLink cs
    else c :: subLink cs
  termination_by l => l.length
  decreasing_by
  · have hlen := findLinkClose_length cs g1 g2 rest hlc
    simp only [List.length_cons]
    omega
  · simp
  · simp

/-- The whitespace class `\s` of Python regular expressions (ASCII part). -/
def pyWhitespace (c : Char) : Bool :=
  c == ' ' || c == '\t' || c == '\n' || c == '\r' || c == '\x0b' || c == '\x0c'

/-- `\s+`, greedy: requires at least one whitespace character and consumes
the whole run (which may cross newlines). -/
def wsHead : List Char → Option (List Char)
  | [] => none
  | c :: cs => if pyWhitespace c then some (cs.dropWhile pyWhitespace) else none

theorem wsHead_length : ∀ l r, wsHead l = some r → r.length + 1 ≤ l.length := by
  intro l r h
  cases l with
  | nil => simp [wsHead] at h
  | cons c cs =>
    simp only [wsHead] at h
    by_cases hws : pyWhitespace c = true
    · rw [if_pos hws] at h
      injection h with h
      subst h
      have hdw : (cs.dropWhile pyWhitespace).length ≤ cs.length :=
        (List.dropWhile_sublist pyWhitespace).length_le
      simp
      omega
    · rw [if_neg hws] at h
      exact absurd h (by simp)

/-- `^#{1,6}\s+` at a line start: one to six hashes then whitespace.  Seven
or more hashes never match, because every shorter hash run is followed by
another hash, not whitespace. -/
def headerHead (l : List Char) : Option (List Char) :=
  let k := (l.takeWhile (fun x => x == '#')).length
  if 1 ≤ k && k ≤ 6 then wsHead (l.drop k) else none

theorem headerHead_length : ∀ l r, headerHead l = some r → r.length + 2 ≤ l.length := by
  intro l r h
  unfold headerHead at h
  set k := (l.takeWhile (fun x => x == '#')).length with hk
  by_cases hkb : (1 ≤ k && k ≤ 6) = true
  · rw [if_pos hkb] at h
    have hw := wsHead_length (l.drop k) r h
    have hkle : k ≤ l.length := by
      rw [hk]
      exact (List.takeWhile_sublist _).length_le
    simp [List.length_drop] at hw
    simp only [Bool.and_eq_true, decide_eq_true_eq] at hkb
    omega
  · rw [if_neg hkb] at h
    exact absurd h (by simp)

/-- `^>\s+` at a line start. -/
def quoteHead : List Char → Option (List Char)
  | [] => none
  | c :: cs => if c == '>' then wsHead cs else none

theorem quoteHead_length : ∀ l r, quoteHead l = some r → r.length + 2 ≤ l.length := by
  intro l r h
  cases l with
  | nil => simp [quoteHead] at h
  | cons c cs =>
    simp only [quoteHead] at h
    by_cases hc : (c == '>') = true
    · rw [if_pos hc] at h
      have := wsHead_length cs r h
      simp
      omega
    · rw [if_neg hc] at h
      exact absurd h (by simp)

/-- Rule 4, `^(#{1,6})\s+(.*?)$` (MULTILINE) to `*\2*`: headers become bold.
`atStart` records whether the scanner sits at the start of a line. -/
def subHeader (atStart : Bool) : List Char → List Char
  | [] => []
  | c :: cs =>
    if atStart then
      match hh : headerHead (c :: cs) with
      | some rest =>
          '*' :: (rest.takeWhile (fun x => x != '\n') ++ '*' ::
            subHeader false (rest.dropWhile (fun x => x != '\n')))
      | none => c :: subHeader (c == '\n') cs
    else c :: subHeader (c == '\n') cs
  termination_by l => l.length
  decreasing_by
  · have hlen := headerHead_length (c :: cs) rest hh
    have hdw : (rest.dropWhile (fun x => x != '\n')).length ≤ rest.length :=
      (List.dropWhile_sublist _).length_le
    simp only [List.length_cons] at hlen ⊢
    omega
  · simp
  · simp

/-- Rule 7, `^>\s+(.*?)$` (MULTILINE) to `>>>\1`: blockquotes. -/
def subQuote (atStart : Bool) : List Char → List Char
  | [] => []
  | c :: cs =>
    if atStart then
      match hh : quoteHead (c :: cs) with
      | some rest =>
          '>' :: '>' :: '>' :: (rest.takeWhile (fun x => x != '\n') ++
            subQuote false (rest.dropWhile (fun x => x != '\n')))
      | none => c :: subQuote (c == '\n') cs
    else c :: subQuote (c == '\n') cs
  termination_by l => l.length
  decreasing_by
  · have hlen := quoteHead_length (c :: cs) rest hh
    have hdw : (rest.dropWhile (fun x => x != '\n')).length ≤ rest.length :=
      (List.dropWhile_sublist _).length_le
    simp only [List.length_cons] at hlen ⊢
    omega
  · simp
  · simp

/-- `fix_slack_formatting(text)`: the seven passes in source order — bold,
italic, links, headers, HTML strip, code blocks, blockquotes. -/
def fix_slack_formatting (l : List Char) : List Char :=
  subQuote true
    (subDelim [btick, btick, btick] [btick] true
      (subHtml
        (subHeader true
          (subLink
            (subDelim ['_', '_'] ['_'] false
              (subDelim ['*', '*'] ['*'] false l))))))

/-! ## MessageComposer: `completion` in `utils/message_generator.py`

The generative backend (`client.chat.completions.create`) is a parameter
`backend : Nat → GenResult` from the attempt index to its outcome: `ok text`
for a returned message and `err` for a raised exception.  The prompt built
from the personality configuration only influences what the backend returns,
so it is absorbed into `backend`.  `random.choice(BACKUP_MESSAGES)` is the
explicit parameter `pick`.  Strings are `List Char`. -/

/-- Python `str.replace(pat, rep)`: replace non-overlapping occurrences left
to right.  Python inserts `rep` between all characters when `pat` is empty;
that case is never exercised here and the guard only serves termination. -/
def pythonReplace (pat rep : List Char) : List Char → List Char
  | [] => []
  | c :: cs =>
    if hp : pat.isEmpty then c :: cs
    else if pat.isPrefixOf (c :: cs) then
      rep ++ pythonReplace pat rep ((c :: cs).drop pat.length)
    else c :: pythonReplace pat rep cs
  termination_by l => l.length
  decreasing_by
  · have h1 : 1 ≤ pat.length := by
      cases pat with
      | nil => simp at hp
      | cons x xs => simp
    simp only [List.length_drop, List.length_cons]
    omega
  · simp

theorem pythonReplace_of_no_match (pat rep : List Char) :
    ∀ l, ¬ pat <:+: l → pythonReplace pat rep l = l := by
  intro l
  induction l with
  | nil => intro h; simp [pythonReplace]
  | cons c cs ih =>
    intro h
    have hne : ¬ (pat.isEmpty = true) := by
      cases pat with
      | nil => exact absurd ⟨[], c :: cs, rfl⟩ h
      | cons x xs => simp
    have hnp : ¬ (pat.isPrefixOf (c :: cs) = true) := by
      intro hp
      exact h (List.isPrefixOf_iff_prefix.mp hp).isInfix
    simp only [pythonReplace]
    rw [dif_neg hne, if_neg hnp]
    rw [ih (fun hh => h (hh.trans (List.suffix_cons c cs).isInfix))]

/-- Replacing a pattern that occurs exactly once, marked by a character `c`
that appears nowhere else. -/
theorem pythonReplace_single (pat rep : List Char) (c : Char)
    (hhead : pat.head? = some c) :
    ∀ pre post, c ∉ pre → c ∉ post →
      pythonReplace pat rep (pre ++ pat ++ post) = pre ++ rep ++ post := by
  obtain ⟨pat', rfl⟩ : ∃ t, pat = c :: t := by
    cases pat with
    | nil => simp at hhead
    | cons x xs =>
      simp only [List.head?_cons, Option.some.injEq] at hhead
      exact ⟨xs, by rw [hhead]⟩
  intro pre
  induction pre with
  | nil =>
    intro post hpre hpost
    have hnotin : ¬ (c :: pat') <:+: post :=
      fun hh => hpost (hh.subset (List.mem_cons_self c pat'))
    have key : (c :: pat') ++ post = c :: (pat' ++ post) := List.cons_append c pat' post
    simp only [List.nil_append]
    rw [key]
    simp only [pythonReplace]
    rw [dif_neg (by simp)]
    rw [if_pos (by
      rw [← key]
      exact List.isPrefixOf_iff_prefix.mpr (List.prefix_append _ _))]
    rw [show List.drop (c :: pat').length (c :: (pat' ++ post)) = post from by
      rw [← key]
      exact List.drop_left _ _]
    rw [pythonReplace_of_no_match _ _ post hnotin]
  | cons a pre' ih =>
    intro post hpre hpost
    have hac : a ≠ c := fun hh => hpre (by simp [hh])
    have hnp : ¬ ((c :: pat').isPrefixOf (a :: (pre' ++ (c :: pat') ++ post)) = true) := by
      intro hp
      obtain ⟨t, ht⟩ := List.isPrefixOf_iff_prefix.mp hp
      injection ht with h1 h2
      exact absurd h1.symm hac
    have key : (a :: pre') ++ (c :: pat') ++ post =
        a :: (pre' ++ (c :: pat') ++ post) := by simp
    rw [key]
    simp only [pythonReplace]
    rw [dif_neg (by simp), if_neg hnp]
    rw [ih post (fun hh => hpre (List.mem_cons_of_mem a hh)) hpost]
    simp

/-- Text of backup message 1 before its single placeholder. -/
def backupPre1 : String :=
  "\n:birthday: HAPPY BIRTHDAY "

/-- Text of backup message 1 after its single placeholder. -/
def backupPost1 : String :=
  "!!! :tada:\n\n<!channel> We've got a birthday to celebrate! \n\n:cake: :cake: :cake: :cake: :cake: :cake: :cake:\n\n*Let the festivities begin!* :confetti_ball: \n\nWishing you a day filled with:\n• Joy :smile:\n• Laughter :joy:\n• _Way too much_ cake :cake:\n• Zero work emails :no_bell:\n\nAny special celebration plans for your big day? :sparkles:\n\n:point_down: Drop your birthday wishes below! :point_down:\n    "

/-- Text of backup message 2 before its single placeholder. -/
def backupPre2 : String :=
  "\n:rotating_light: ATTENTION <!channel> :rotating_light:\n\nIT'S "

/-- Text of backup message 2 after its single placeholder. -/
def backupPost2 : String :=
  "'s BIRTHDAY!!! :birthday: \n\n:star2: :star2: :star2: :star2: :star2:\n\nTime to celebrate *YOU* and all the awesome you bring to our team! :muscle:\n\n• Your jokes :laughing:\n• Your hard work :computer:\n• Your brilliant ideas :bulb:\n• Just being YOU :heart:\n\nHope your day is as amazing as you are! :star:\n\nSo... how are you planning to celebrate? :thinking_face:\n    "

/-- Text of backup message 3 before its single placeholder. -/
def backupPre3 : String :=
  "\n:alarm_clock: *Birthday Alert* :alarm_clock:\n\n<!channel> Everyone drop what you're doing because...\n\n"

/-- Text of backup message 3 after its single placeholder. -/
def backupPost3 : String :=
  " is having a BIRTHDAY today! :birthday:\n\n:cake: :gift: :balloon: :confetti_ball: :cake: :gift: :balloon:\n\nWishing you:\n• Mountains of cake :mountain:\n• Oceans of presents :ocean:\n• Absolutely *zero* work emails! :no_bell:\n\nWhat's on the birthday agenda today? :calendar:\n\n:point_right: Reply with your best birthday GIF! :point_left:\n    "

/-- Text of backup message 4 before its single placeholder. -/
def backupPre4 : String :=
  "\nWhoop whoop! :tada: \n\n:loudspeaker: <!channel> Announcement! :loudspeaker:\n\nIt's "

/-- Text of backup message 4 after its single placeholder. -/
def backupPost4 : String :=
  "'s special day! :birthday:\n\n:sparkles: :sparkles: :sparkles: :sparkles: :sparkles:\n\nMay your birthday be filled with:\n• Cake that's *just right* :cake:\n• Presents that don't need returning :gift:\n• Birthday wishes that actually come true! :sparkles:\n\nHow are you celebrating this year? :cake:\n\n:clap: :clap: :clap: :clap: :clap:\n    "

/-- Text of backup message 5 before its single placeholder. -/
def backupPre5 : String :=
  "\n:rotating_light: SPECIAL BIRTHDAY ANNOUNCEMENT :rotating_light:\n\n<!channel> HEY EVERYONE! \n\n:arrow_down: :arrow_down: :arrow_down:\nIt's "

/-- Text of backup message 5 after its single placeholder. -/
def backupPost5 : String :=
  "'s birthday!\n:arrow_up: :arrow_up: :arrow_up:\n\n:birthday: :confetti_ball: :birthday: :confetti_ball:\n\nTime to shower them with:\n• ~Work assignments~ BIRTHDAY WISHES instead! :grin:\n• Your most ridiculous emojis :stuck_out_tongue_closed_eyes:\n• Virtual high-fives :raised_hands:\n\nHope your special day is absolutely *fantastic*! :star2: \n\nAny exciting birthday plans to share? :eyes:\n    "

/-- `BACKUP_MESSAGES`, each written as the text around its single `{name}`
placeholder. -/
def BACKUP_MESSAGES : List String :=
  [backupPre1 ++ "{name}" ++ backupPost1,
   backupPre2 ++ "{name}" ++ backupPost2,
   backupPre3 ++ "{name}" ++ backupPost3,
   backupPre4 ++ "{name}" ++ backupPost4,
   backupPre5 ++ "{name}" ++ backupPost5]

def backupMessage (i : Fin 5) : String := BACKUP_MESSAGES.getD i.val ""

/-- `get_user_mention(user_id)`. -/
def get_user_mention (uid : List Char) : List Char :=
  if uid.isEmpty then "Unknown User".data else '<' :: '@' :: (uid ++ ['>'])

inductive GenResult
  | ok (text : List Char)
  | err
deriving DecidableEq, Repr

/-- Provenance of a composed message (spec section 3, ComposedMessage). -/
inductive Prov
  | generated
  | fallback
deriving DecidableEq, Repr

/-- The validation step of `completion`: the (formatting-fixed) reply must
contain the user mention (only when a user id was supplied) and the literal
`<!channel>`. -/
def validate_reply (useMention : Bool) (mention reply : List Char) : Bool :=
  (!useMention || decide (mention <:+: reply)) &&
    decide ("<!channel>".data <:+: reply)

/-- The `while retry_count <= max_retries` loop of `completion`, recursing on
`remaining = max_retries - retry_count`.  Each step consults the backend: a
raised exception returns the fallback text at once; a reply is normalized by
`fix_slack_formatting` and validated; an invalid reply with no retries left
is returned as is.  The third component counts backend calls. -/
def completionAux (backend : Nat → GenResult) (validate : List Char → Bool)
    (fallbackText : List Char) : Nat → Nat → List Char × Prov × Nat
  | attempt, 0 =>
    match backend attempt with
    | GenResult.err => (fallbackText, Prov.fallback, 1)
    | GenResult.ok reply => (fix_slack_formatting reply, Prov.generated, 1)
  | attempt, remaining + 1 =>
    match backend attempt with
    | GenResult.err => (fallbackText, Prov.fallback, 1)
    | GenResult.ok reply =>
      let fixed := fix_slack_formatting reply
      if validate fixed then (fixed, Prov.generated, 1)
      else
        let r := completionAux backend validate fallbackText (attempt + 1) remaining
        (r.1, r.2.1, r.2.2 + 1)

/-- `completion(name, date, user_id, birth_date, birth_year, max_retries)`.
The date, birth date and birth year only shape the prompt, which is absorbed
into `backend`; the final `create_birthday_announcement` return after the
loop is unreachable (every iteration returns).  `user_mention` falls back to
the display name when no user id is supplied, in which case validation skips
the mention check. -/
def completion (backend : Nat → GenResult) (pick : Fin 5) (name uid : List Char)
    (maxRetries : Nat) : List Char × Prov × Nat :=
  let useMention := !uid.isEmpty
  let mention := if uid.isEmpty then name else get_user_mention uid
  let fallbackText := pythonReplace "{name}".data mention (backupMessage pick).data
  completionAux backend (validate_reply useMention mention) fallbackText 0 maxRetries

/-! ### Fallback text facts -/

def backupPreS (i : Fin 5) : String :=
  [backupPre1, backupPre2, backupPre3, backupPre4, backupPre5].getD i.val ""

def backupPostS (i : Fin 5) : String :=
  [backupPost1, backupPost2, backupPost3, backupPost4, backupPost5].getD i.val ""

theorem infix_append_of_left {t x : List Char} (y : List Char) (h : t <:+: x) :
    t <:+: x ++ y := by
  obtain ⟨s1, s2, hs⟩ := h
  exact ⟨s1, s2 ++ y, by rw [← hs]; simp⟩

theorem infix_append_of_right {t y : List Char} (x : List Char) (h : t <:+: y) :
    t <:+: x ++ y := by
  obtain ⟨s1, s2, hs⟩ := h
  exact ⟨x ++ s1, s2, by rw [← hs]; simp⟩

theorem backup_render_generic (pre post : String) (mention : List Char)
    (hpre : '{' ∉ pre.data) (hpost : '{' ∉ post.data) :
    pythonReplace "{name}".data mention (pre ++ "{name}" ++ post).data =
      pre.data ++ mention ++ post.data := by
  have hdata : (pre ++ "{name}" ++ post).data =
      pre.data ++ "{name}".data ++ post.data := by
    simp [String.data_append]
  rw [hdata]
  exact pythonReplace_single "{name}".data mention '{' rfl pre.data post.data hpre hpost

/-- The `random_message.replace("{name}", mention_text)` of the fallback
path, split at the single placeholder. -/
theorem backup_render (i : Fin 5) (mention : List Char) :
    pythonReplace "{name}".data mention (backupMessage i).data =
      (backupPreS i).data ++ mention ++ (backupPostS i).data := by
  fin_cases i
  · exact backup_render_generic backupPre1 backupPost1 mention (by decide) (by decide)
  · exact backup_render_generic backupPre2 backupPost2 mention (by decide) (by decide)
  · exact backup_render_generic backupPre3 backupPost3 mention (by decide) (by decide)
  · exact backup_render_generic backupPre4 backupPost4 mention (by decide) (by decide)
  · exact backup_render_generic backupPre5 backupPost5 mention (by decide) (by decide)

theorem backup_channel_in (i : Fin 5) :
    "<!channel>".data <:+: (backupPreS i).data ∨
      "<!channel>".data <:+: (backupPostS i).data := by
  fin_cases i
  · exact Or.inr (by decide)
  · exact Or.inl (by decide)
  · exact Or.inl (by decide)
  · exact Or.inl (by decide)
  · exact Or.inl (by decide)

theorem backup_pre_ne (i : Fin 5) : (backupPreS i).data ≠ [] := by
  fin_cases i <;> decide

/-- Every rendered fallback message contains the substituted mention and the
broadcast token, and is non-empty. -/
theorem fallback_props (i : Fin 5) (mention : List Char) :
    mention <:+: pythonReplace "{name}".data mention (backupMessage i).data ∧
    "<!channel>".data <:+: pythonReplace "{name}".data mention (backupMessage i).data ∧
    pythonReplace "{name}".data mention (backupMessage i).data ≠ [] := by
  rw [backup_render]
  refine ⟨⟨(backupPreS i).data, (backupPostS i).data, by simp⟩, ?_, ?_⟩
  · rcases backup_channel_in i with h | h
    · exact infix_append_of_left _ (infix_append_of_left _ h)
    · exact infix_append_of_right _ h
  · intro hnil
    have := backup_pre_ne i
    simp at hnil
    exact this hnil.1

/-! ### The retry loop -/

/-- If the first `k` attempts return text failing validation and attempt `k`
raises, the loop returns the fallback at once after exactly `k + 1` backend
calls — no further retries happen after a raise. -/
theorem completionAux_err (backend : Nat → GenResult) (validate : List Char → Bool)
    (fb : List Char) : ∀ (k remaining attempt : Nat), k ≤ remaining →
    (∀ j, j < k → ∃ s, backend (attempt + j) = GenResult.ok s ∧
      validate (fix_slack_formatting s) = false) →
    backend (attempt + k) = GenResult.err →
    completionAux backend validate fb attempt remaining = (fb, Prov.fallback, k + 1) := by
  intro k
  induction k with
  | zero =>
    intro remaining attempt hk hprev herr
    simp only [Nat.add_zero] at herr
    cases remaining with
    | zero => simp [completionAux, herr]
    | succ rem => simp [completionAux, herr]
  | succ k ih =>
    intro remaining attempt hk hprev herr
    obtain ⟨rem, rfl⟩ : ∃ r, remaining = r + 1 := ⟨remaining - 1, by omega⟩
    obtain ⟨s, hs, hsv⟩ := hprev 0 (by omega)
    simp only [Nat.add_zero] at hs
    have hrec := ih rem (attempt + 1) (by omega)
      (fun j hj => by
        obtain ⟨t, ht, hv'⟩ := hprev (j + 1) (by omega)
        exact ⟨t, by rw [show attempt + 1 + j = attempt + (j + 1) by omega]; exact ht, hv'⟩)
      (by rw [show attempt + 1 + k = attempt + (k + 1) by omega]; exact herr)
    simp [completionAux, hs, hsv, hrec]

/-- C6: if the generative backend raises on the call it is given (after any
number of merely-invalid attempts within budget), the composer makes no
further backend calls and immediately returns the chosen fallback template
with the mention substituted for `{name}`: a non-empty string containing the
mention and the broadcast token, of provenance `fallback`. -/
theorem completion_backend_raises (backend : Nat → GenResult) (pick : Fin 5)
    (name uid : List Char) (maxRetries k : Nat)
    (huid : uid ≠ [])
    (hprev : ∀ j, j < k → ∃ s, backend j = GenResult.ok s ∧
      validate_reply true (get_user_mention uid) (fix_slack_formatting s) = false)
    (hk : k ≤ maxRetries)
    (herr : backend k = GenResult.err) :
    completion backend pick name uid maxRetries =
      (pythonReplace "{name}".data (get_user_mention uid) (backupMessage pick).data,
        Prov.fallback, k + 1) ∧
    get_user_mention uid <:+: (completion backend pick name uid maxRetries).1 ∧
    "<!channel>".data <:+: (completion backend pick name uid maxRetries).1 ∧
    (completion backend pick name uid maxRetries).1 ≠ [] := by
  have hem : uid.isEmpty = false := by
    cases uid with
    | nil => exact absurd rfl huid
    | cons x xs => rfl
  have heq : completion backend pick name uid maxRetries =
      (pythonReplace "{name}".data (get_user_mention uid) (backupMessage pick).data,
        Prov.fallback, k + 1) := by
    unfold completion
    simp only [hem, Bool.not_false, Bool.false_eq_true, if_false]
    exact completionAux_err backend _ _ k maxRetries 0 hk
      (by simpa using hprev) (by simpa using herr)
  obtain ⟨h1, h2, h3⟩ := fallback_props pick (get_user_mention uid)
  rw [heq]
  exact ⟨rfl, h1, h2, h3⟩

/-- C6 witness: a backend that raises on its first call, user id `U123`,
fallback template 1. -/
theorem completion_backend_raises_witness :
    completion (fun _ => GenResult.err) 0 "John".data "U123".data 2 =
      (pythonReplace "{name}".data (get_user_mention "U123".data)
        (backupMessage 0).data, Prov.fallback, 0 + 1) ∧
    get_user_mention "U123".data <:+:
      (completion (fun _ => GenResult.err) 0 "John".data "U123".data 2).1 ∧
    "<!channel>".data <:+:
      (completion (fun _ => GenResult.err) 0 "John".data "U123".data 2).1 ∧
    (completion (fun _ => GenResult.err) 0 "John".data "U123".data 2).1 ≠ [] :=
  completion_backend_raises (fun _ => GenResult.err) 0 "John".data "U123".data 2 0
    (by decide) (fun j hj => absurd hj (by omega)) (by omega) rfl

/-! ### C1: the two-token guarantee across the three paths -/

/-- Trichotomy for the retry loop: the result is the fallback text, or a
generated reply that passed validation, or — when every attempt in the
budget produced an invalid reply — the last invalid reply, returned as is. -/
theorem completionAux_cases (backend : Nat → GenResult) (validate : List Char → Bool)
    (fb : List Char) : ∀ (remaining attempt : Nat),
    ((completionAux backend validate fb attempt remaining).2.1 = Prov.fallback ∧
      (completionAux backend validate fb attempt remaining).1 = fb) ∨
    ((completionAux backend validate fb attempt remaining).2.1 = Prov.generated ∧
      validate (completionAux backend validate fb attempt remaining).1 = true) ∨
    ((∀ j, j ≤ remaining → ∃ s, backend (attempt + j) = GenResult.ok s ∧
        validate (fix_slack_formatting s) = false) ∧
      ∃ s, backend (attempt + remaining) = GenResult.ok s ∧
        (completionAux backend validate fb attempt remaining).1 =
          fix_slack_formatting s ∧
        validate (completionAux backend validate fb attempt remaining).1 = false) := by
  intro remaining
  induction remaining with
  | zero =>
    intro attempt
    cases hb : backend attempt with
    | err => exact Or.inl (by simp [completionAux, hb])
    | ok s =>
      cases hv : validate (fix_slack_formatting s) with
      | true => exact Or.inr (Or.inl (by simp [completionAux, hb, hv]))
      | false =>
        refine Or.inr (Or.inr ⟨?_, s, ?_, ?_, ?_⟩)
        · intro j hj
          have hj0 : j = 0 := by omega
          subst hj0
          exact ⟨s, by simpa using hb, hv⟩
        · simpa using hb
        · simp [completionAux, hb]
        · simp [completionAux, hb, hv]
  | succ rem ih =>
    intro attempt
    cases hb : backend attempt with
    | err => exact Or.inl (by simp [completionAux, hb])
    | ok s =>
      cases hv : validate (fix_slack_formatting s) with
      | true => exact Or.inr (Or.inl (by simp [completionAux, hb, hv]))
      | false =>
        have hres : completionAux backend validate fb attempt (rem + 1) =
            ((completionAux backend validate fb (attempt + 1) rem).1,
             (completionAux backend validate fb (attempt + 1) rem).2.1,
             (completionAux backend validate fb (attempt + 1) rem).2.2 + 1) := by
          simp [completionAux, hb, hv]
        rcases ih (attempt + 1) with ⟨hp, hf⟩ | ⟨hp, hval⟩ | ⟨hall, s', hs', hr, hvr⟩
        · exact Or.inl (by rw [hres]; exact ⟨hp, hf⟩)
        · exact Or.inr (Or.inl (by rw [hres]; exact ⟨hp, hval⟩))
        · refine Or.inr (Or.inr ⟨?_, s', ?_, ?_, ?_⟩)
          · intro j hj
            cases j with
            | zero => exact ⟨s, by simpa using hb, hv⟩
            | succ j' =>
              have hj' := hall j' (by omega)
              rw [show attempt + (j' + 1) = attempt + 1 + j' by omega]
              exact hj'
          · rw [show attempt + (rem + 1) = attempt + 1 + rem by omega]
            exact hs'
          · rw [hres]; exact hr
          · rw [hres]; exact hvr

/-- C1: for a subject with a user id, the composed text contains the mention
token and `<!channel>` on the fallback path and on the validated generated
path; but when every backend call within the retry budget returns a reply
that still fails validation after formatting repair, the loop gives up and
returns the last invalid reply, which lacks at least one required token.
The unconditional claim is refuted by `completion_tokens_counterexample`. -/
theorem completion_tokens (backend : Nat → GenResult) (pick : Fin 5)
    (name uid : List Char) (maxRetries : Nat) (huid : uid ≠ []) :
    (get_user_mention uid <:+: (completion backend pick name uid maxRetries).1 ∧
      "<!channel>".data <:+: (completion backend pick name uid maxRetries).1) ∨
    ((∀ j, j ≤ maxRetries → ∃ s, backend j = GenResult.ok s ∧
        validate_reply true (get_user_mention uid) (fix_slack_formatting s) = false) ∧
      ∃ s, backend maxRetries = GenResult.ok s ∧
        (completion backend pick name uid maxRetries).1 = fix_slack_formatting s ∧
        validate_reply true (get_user_mention uid)
          (completion backend pick name uid maxRetries).1 = false) := by
  have hem : uid.isEmpty = false := by
    cases uid with
    | nil => exact absurd rfl huid
    | cons x xs => rfl
  have hcomp : completion backend pick name uid maxRetries =
      completionAux backend (validate_reply true (get_user_mention uid))
        (pythonReplace "{name}".data (get_user_mention uid) (backupMessage pick).data)
        0 maxRetries := by
    unfold completion
    rw [hem]
    simp
  rcases completionAux_cases backend (validate_reply true (get_user_mention uid))
      (pythonReplace "{name}".data (get_user_mention uid) (backupMessage pick).data)
      maxRetries 0 with ⟨hp, hf⟩ | ⟨hp, hval⟩ | ⟨hall, s, hs, hr, hvr⟩
  · left
    rw [hcomp, hf]
    obtain ⟨h1, h2, _⟩ := fallback_props pick (get_user_mention uid)
    exact ⟨h1, h2⟩
  · left
    rw [hcomp]
    simp only [validate_reply, Bool.not_true, Bool.false_or, Bool.and_eq_true,
      decide_eq_true_eq] at hval
    exact hval
  · right
    refine ⟨fun j hj => by simpa using hall j hj, s, by simpa using hs,
      by rw [hcomp]; exact hr, by rw [hcomp]; exact hvr⟩

/-- C1 counterexample: a backend that always answers the fixed text
`Happy day!` — which contains neither token, and which formatting repair
leaves unchanged — exhausts the retry budget (three calls at
`max_retries = 2`) and `completion` returns that text on the generated
path, lacking both the mention and the broadcast token. -/
theorem completion_tokens_counterexample :
    completion (fun _ => GenResult.ok "Happy day!".data) 0
        "John".data "U123".data 2 =
      ("Happy day!".data, Prov.generated, 3) ∧
    ¬ get_user_mention "U123".data <:+:
        (completion (fun _ => GenResult.ok "Happy day!".data) 0
          "John".data "U123".data 2).1 ∧
    ¬ "<!channel>".data <:+:
        (completion (fun _ => GenResult.ok "Happy day!".data) 0
          "John".data "U123".data 2).1 := by
  have hfix : fix_slack_formatting "Happy day!".data = "Happy day!".data := by
    simp [fix_slack_formatting, subQuote, subDelim, subHtml, subHeader, subLink,
      findClose, findGt, findRParen, findLinkClose, headerHead, quoteHead, wsHead,
      pyWhitespace, btick]
  have hval : validate_reply true "<@U123>".data "Happy day!".data = false := by
    decide
  have haux : ∀ (fb : List Char) (remaining attempt : Nat),
      completionAux (fun _ => GenResult.ok "Happy day!".data)
        (validate_reply true "<@U123>".data) fb attempt remaining =
        ("Happy day!".data, Prov.generated, remaining + 1) := by
    intro fb remaining
    induction remaining with
    | zero => intro attempt; simp [completionAux, hfix]
    | succ rem ih => intro attempt; simp [completionAux, hfix, hval, ih]
  have hmain : completion (fun _ => GenResult.ok "Happy day!".data) 0
      "John".data "U123".data 2 = ("Happy day!".data, Prov.generated, 3) := by
    unfold completion
    rw [show ("U123".data).isEmpty = false from rfl,
      show get_user_mention "U123".data = "<@U123>".data from rfl]
    simp only [Bool.not_false, Bool.false_eq_true, if_false]
    exact haux _ 2 0
  refine ⟨hmain, ?_, ?_⟩
  · rw [hmain]; decide
  · rw [hmain]; decide

/-- C1 witness: with user id `U123` and a backend that raises at once, the
guarantee holds on the fallback path (left disjunct). -/
theorem completion_tokens_witness :
    (get_user_mention "U123".data <:+:
        (completion (fun _ => GenResult.err) 0 "John".data "U123".data 2).1 ∧
      "<!channel>".data <:+:
        (completion (fun _ => GenResult.err) 0 "John".data "U123".data 2).1) ∨
    ((∀ j, j ≤ 2 → ∃ s, (fun _ => GenResult.err) j = GenResult.ok s ∧
        validate_reply true (get_user_mention "U123".data)
          (fix_slack_formatting s) = false) ∧
      ∃ s, (fun _ => GenResult.err) 2 = GenResult.ok s ∧
        (completion (fun _ => GenResult.err) 0 "John".data "U123".data 2).1 =
          fix_slack_formatting s ∧
        validate_reply true (get_user_mention "U123".data)
          (completion (fun _ => GenResult.err) 0 "John".data "U123".data 2).1 = false) :=
  completion_tokens (fun _ => GenResult.err) 0 "John".data "U123".data 2 (by decide)

/-- C8: `fix_slack_formatting` does NOT preserve every occurrence of the
mention token.  The html-stripping rule carries the lookahead so as not to
open a match at a Slack token, but a stray earlier `<` still opens one whose
lazy group ends at the token's own `>`: on input `<a <@U123> b>` the mention
`<@U123>` is a substring of the input and of no output, the result being
`a <@U123 b>`. -/
theorem fix_slack_formatting_destroys_token :
    "<@U123>".data <:+: "<a <@U123> b>".data ∧
    fix_slack_formatting "<a <@U123> b>".data = "a <@U123 b>".data ∧
    ¬ "<@U123>".data <:+: fix_slack_formatting "<a <@U123> b>".data := by
  have h : fix_slack_formatting "<a <@U123> b>".data = "a <@U123 b>".data := by
    simp [fix_slack_formatting, subQuote, subDelim, subHtml, subHeader, subLink,
      findClose, findGt, findRParen, findLinkClose, headerHead, quoteHead, wsHead,
      pyWhitespace, btick]
  exact ⟨by decide, h, by rw [h]; decide⟩

end BrightDayBot
